import Mathlib

/-!
Verification model of the call-analysis client (two browser front-ends).

The primary front-end (`src/unnamed/part_000`) implements the upload
workflow, the report renderers, the JSON export and the health probe; the
secondary front-end (`src/web/frontend/app.js`) is a near-duplicate whose
`escapeHtml` / `escapeAttribute` pair is modelled at the end of this file.

Modelling conventions:
- JavaScript numbers are modelled as scaled decimals `JNum` (mantissa and
  decimal exponent).  JavaScript prints doubles with the shortest decimal
  that round-trips, so `String(n)` / `JSON.parse` are exact on the decimal
  fragment modelled here; IEEE-754 bit-level behaviour is out of scope.
- An absent (`undefined`) object field is `Option.none`.  JavaScript `||`
  defaults are modelled by `jsOrElse` (empty string is falsy), `??`
  defaults by `Option.getD`.
- DOM output is modelled as lists of abstract nodes, one per created
  element, in creation order.
- Code that can throw a `TypeError` is modelled in `Except String`; the
  carried message text is engine dependent and no theorem depends on it.
-/

/-- Characters that the scanner-sensitive printers need, by code point. -/
def quoteChar : Char := Char.ofNat 34

/-- Backslash character. -/
def backslashChar : Char := Char.ofNat 92

/-- Opening curly brace character. -/
def braceOpenChar : Char := Char.ofNat 123

/-- Closing curly brace character. -/
def braceCloseChar : Char := Char.ofNat 125

/-- Decimal digit character for a value below ten. -/
def digitChar : Nat → Char
  | 0 => '0' | 1 => '1' | 2 => '2' | 3 => '3' | 4 => '4'
  | 5 => '5' | 6 => '6' | 7 => '7' | 8 => '8' | 9 => '9'
  | _ => '0'

/-- Lower-case hexadecimal digit character, as `JSON.stringify` emits in
`\u....` escapes. -/
def hexDigitChar : Nat → Char
  | 0 => '0' | 1 => '1' | 2 => '2' | 3 => '3' | 4 => '4'
  | 5 => '5' | 6 => '6' | 7 => '7' | 8 => '8' | 9 => '9'
  | 10 => 'a' | 11 => 'b' | 12 => 'c' | 13 => 'd' | 14 => 'e' | 15 => 'f'
  | _ => '0'

/-- Numeric value of a hexadecimal digit character (upper or lower case),
`none` on a non-hex character. -/
def hexVal (c : Char) : Option Nat :=
  if c.isDigit then some (c.toNat - 48)
  else if 'a' ≤ c ∧ c ≤ 'f' then some (c.toNat - 87)
  else if 'A' ≤ c ∧ c ≤ 'F' then some (c.toNat - 55)
  else none

/-- Decimal digits of a natural number accumulated onto `acc`; the fuel is
structural so that the kernel can evaluate it.  With `fuel ≥ n` the digits
of `n` are complete. -/
def natDigitsFuel : Nat → Nat → List Char → List Char
  | 0, _, acc => acc
  | _ + 1, 0, acc => acc
  | fuel + 1, n, acc => natDigitsFuel fuel (n / 10) (digitChar (n % 10) :: acc)

/-- Decimal representation of a natural number, as `String(n)` prints it. -/
def natToDecimal (n : Nat) : List Char :=
  if n = 0 then ['0'] else natDigitsFuel n n []

/-- Left-pad a digit list with zeros up to length `k`. -/
def padToLen (k : Nat) (l : List Char) : List Char :=
  List.replicate (k - l.length) '0' ++ l

/-- A JavaScript number, modelled as the scaled decimal
`mant / 10 ^ fexp`. -/
structure JNum where
  mant : Int
  fexp : Nat
deriving DecidableEq

/-- Rational value of a modelled number. -/
def JNum.val (n : JNum) : ℚ := (n.mant : ℚ) / (10 ^ n.fexp : ℚ)

/-- Digit characters of `String(n)` for a modelled number: the mantissa
digits with a decimal point inserted `fexp` places from the right. -/
def printNumChars (m : Int) (e : Nat) : List Char :=
  let digits := if e = 0 then natToDecimal m.natAbs
                else padToLen (e + 1) (natToDecimal m.natAbs)
  let core := if e = 0 then digits
              else digits.take (digits.length - e) ++ '.' :: digits.drop (digits.length - e)
  if m < 0 then '-' :: core else core

/-- `String(n)` for a modelled number. -/
def numToString (n : JNum) : String := ⟨printNumChars n.mant n.fexp⟩

/-- `Number.prototype.toFixed(d)`: decimal rounding half away from zero to
`d` fractional digits, computed on `|mant|` scaled by `10 ^ d`.  (The
toFixed of an IEEE double rounds the stored binary value; on the decimal
fragment modelled here the two agree.) -/
def toFixedScaled (d : Nat) (n : JNum) : Nat :=
  (2 * (n.mant.natAbs * 10 ^ d) + 10 ^ n.fexp) / (2 * 10 ^ n.fexp)

/-- `Number.prototype.toFixed(d)` continued: sign, integer digits and,
for `d > 0`, a dot and exactly `d` fraction digits. -/
def jsToFixed (d : Nat) (n : JNum) : String :=
  ⟨(if n.mant < 0 then ['-'] else [])
    ++ natToDecimal (toFixedScaled d n / 10 ^ d)
    ++ (if d = 0 then [] else '.' :: padToLen d (natToDecimal (toFixedScaled d n % 10 ^ d)))⟩

/-- `String.prototype.toUpperCase()` on the ASCII fragment (`Char.toUpper`
per character). -/
def jsUpper (s : String) : String := ⟨s.data.map Char.toUpper⟩

/-- The JavaScript `x || d` idiom on an optional string: the default is
used when the field is absent or the string is empty (falsy). -/
def jsOrElse (o : Option String) (d : String) : String :=
  match o with
  | some s => if s = "" then d else s
  | none => d

/-- Less-or-equal on modelled numbers, decided exactly on integers:
`a.mant / 10 ^ a.fexp ≤ b.mant / 10 ^ b.fexp`. -/
def JNum.le (a b : JNum) : Bool :=
  decide (a.mant * (10 : Int) ^ b.fexp ≤ b.mant * (10 : Int) ^ a.fexp)

/-- `Math.min` on modelled numbers (returns `a` on ties). -/
def jsMathMin (a b : JNum) : JNum := if a.le b then a else b

/-- `Math.max` on modelled numbers (returns `a` on ties). -/
def jsMathMax (a b : JNum) : JNum := if b.le a then a else b

/-- The score-bar clamp `Math.max(0, Math.min(1, v))` from `renderScores`. -/
def jnumClamp01 (v : JNum) : JNum := jsMathMax ⟨0, 0⟩ (jsMathMin ⟨1, 0⟩ v)

/-- JSON value as decoded by `JSON.parse`: the session report payload.
Numbers are scaled decimals (see module docstring); object fields keep
their order, later duplicate keys shadowing earlier ones on access. -/
inductive Json where
  | null
  | bool (b : Bool)
  | num (mant : Int) (fexp : Nat)
  | str (s : String)
  | arr (elems : List Json)
  | obj (fields : List (String × Json))

/-- Property read on a JavaScript object: last binding of the key wins,
as in `JSON.parse` duplicate-key semantics. -/
def lookupLast (fields : List (String × Json)) (k : String) : Option Json :=
  fields.foldl (fun acc kv => if kv.1 = k then some kv.2 else acc) none

/-- Property read `j.k`: defined on objects, `none` (undefined) on other
non-null values.  Callers model the `TypeError` on `null` separately. -/
def jsProp (j : Json) (k : String) : Option Json :=
  match j with
  | .obj fields => lookupLast fields k
  | _ => none

/-- JavaScript truthiness of a JSON value: `null`, `false`, `0` and `""`
are falsy, everything else (including `[]` and objects) is truthy. -/
def jsTruthy (j : Json) : Bool :=
  match j with
  | .null => false
  | .bool b => b
  | .num m _ => m ≠ 0
  | .str s => s ≠ ""
  | .arr _ => true
  | .obj _ => true

mutual

/-- `String(v)` conversion of a JSON value (template-literal coercion). -/
def jsValString : Json → String
  | .null => "null"
  | .bool b => if b then "true" else "false"
  | .num m e => ⟨printNumChars m e⟩
  | .str s => s
  | .arr l => ⟨jsArrJoin l⟩
  | .obj _ => "[object Object]"

/-- `Array.prototype.join(",")` used by `String(array)`; `null` elements
become empty. -/
def jsArrJoin : List Json → List Char
  | [] => []
  | [x] => (jsArrElemString x).data
  | x :: y :: rest => (jsArrElemString x).data ++ ',' :: jsArrJoin (y :: rest)

/-- Element conversion inside `Array.prototype.join`. -/
def jsArrElemString : Json → String
  | .null => ""
  | v => jsValString v

end

mutual

/-- Structural size of a JSON value, the fuel measure of the parser. -/
def jsize : Json → Nat
  | .null => 1
  | .bool _ => 1
  | .num _ _ => 1
  | .str _ => 1
  | .arr l => 1 + jsizeItems l
  | .obj l => 1 + jsizeFields l

/-- Structural size of array elements. -/
def jsizeItems : List Json → Nat
  | [] => 0
  | x :: xs => 1 + jsize x + jsizeItems xs

/-- Structural size of object fields. -/
def jsizeFields : List (String × Json) → Nat
  | [] => 0
  | (_, v) :: fs => 1 + jsize v + jsizeFields fs

end

/-- Escape of one character inside a `JSON.stringify` string literal. -/
def escapeJsonChar (c : Char) : List Char :=
  if c = quoteChar then [backslashChar, quoteChar]
  else if c = backslashChar then [backslashChar, backslashChar]
  else if c = Char.ofNat 8 then [backslashChar, 'b']
  else if c = Char.ofNat 9 then [backslashChar, 't']
  else if c = Char.ofNat 10 then [backslashChar, 'n']
  else if c = Char.ofNat 12 then [backslashChar, 'f']
  else if c = Char.ofNat 13 then [backslashChar, 'r']
  else if c.toNat < 32 then
    [backslashChar, 'u', '0', '0', hexDigitChar (c.toNat / 16), hexDigitChar (c.toNat % 16)]
  else [c]

/-- A `JSON.stringify` string literal: quoted and escaped. -/
def quoteChars (s : String) : List Char :=
  quoteChar :: s.data.flatMap escapeJsonChar ++ [quoteChar]

/-- Indentation emitted by `JSON.stringify(v, null, 2)` at nesting depth
`d`. -/
def indentChars (d : Nat) : List Char := List.replicate (2 * d) ' '

mutual

/-- `JSON.stringify(v, null, 2)` at nesting depth `d`: each array element
and object field on its own line, two extra spaces per depth, `[]` / the
empty object printed inline. -/
def printVal (d : Nat) : Json → List Char
  | .null => ['n', 'u', 'l', 'l']
  | .bool b => if b then ['t', 'r', 'u', 'e'] else ['f', 'a', 'l', 's', 'e']
  | .num m e => printNumChars m e
  | .str s => quoteChars s
  | .arr [] => ['[', ']']
  | .arr (x :: xs) =>
      '[' :: '\n' :: (indentChars (d + 1) ++ printVal (d + 1) x ++ printArrTail (d + 1) xs
        ++ '\n' :: (indentChars d ++ [']']))
  | .obj [] => [braceOpenChar, braceCloseChar]
  | .obj ((k, v) :: fs) =>
      braceOpenChar :: '\n' :: (indentChars (d + 1) ++ quoteChars k ++ ':' :: ' ' :: printVal (d + 1) v
        ++ printObjTail (d + 1) fs ++ '\n' :: (indentChars d ++ [braceCloseChar]))
termination_by j => sizeOf j
decreasing_by all_goals (simp_wf; try omega)

/-- Remaining array elements after the first: `",\n" ++ indent ++ element`
for each. -/
def printArrTail (d : Nat) : List Json → List Char
  | [] => []
  | x :: xs => ',' :: '\n' :: (indentChars d ++ printVal d x ++ printArrTail d xs)
termination_by l => sizeOf l
decreasing_by all_goals (simp_wf; try omega)

/-- Remaining object fields after the first. -/
def printObjTail (d : Nat) : List (String × Json) → List Char
  | [] => []
  | (k, v) :: fs => ',' :: '\n' :: (indentChars d ++ quoteChars k ++ ':' :: ' ' :: printVal d v
      ++ printObjTail d fs)
termination_by l => sizeOf l
decreasing_by all_goals (simp_wf; try omega)

end

/-- `JSON.stringify(v, null, 2)` as a string. -/
def jsonStringify2 (v : Json) : String := ⟨printVal 0 v⟩

/-- Is a character JSON whitespace. -/
def isWsChar (c : Char) : Bool := c = ' ' || c = '\n' || c = '\t' || c = '\r'

/-- Skip leading JSON whitespace. -/
def skipWs : List Char → List Char
  | [] => []
  | c :: rest => if isWsChar c then skipWs rest else c :: rest

/-- Unescape of a single-character escape sequence in a JSON string
literal (`\u` handled separately). -/
def unescapeChar (c : Char) : Option Char :=
  if c = quoteChar then some quoteChar
  else if c = backslashChar then some backslashChar
  else if c = '/' then some '/'
  else if c = 'b' then some (Char.ofNat 8)
  else if c = 'f' then some (Char.ofNat 12)
  else if c = 'n' then some (Char.ofNat 10)
  else if c = 'r' then some (Char.ofNat 13)
  else if c = 't' then some (Char.ofNat 9)
  else none

/-- Body of a JSON string literal after the opening quote: the decoded
characters and the input remaining after the closing quote. -/
def parseStringBody : List Char → Option (List Char × List Char)
  | [] => none
  | c :: rest =>
    if c = quoteChar then some ([], rest)
    else if c = backslashChar then
      match rest with
      | [] => none
      | e :: rest2 =>
        if e = 'u' then
          match rest2 with
          | h1 :: h2 :: h3 :: h4 :: rest6 =>
            match hexVal h1, hexVal h2, hexVal h3, hexVal h4 with
            | some a, some b, some cc, some dd =>
              match parseStringBody rest6 with
              | some (cs, rem) => some (Char.ofNat (a * 4096 + b * 256 + cc * 16 + dd) :: cs, rem)
              | none => none
            | _, _, _, _ => none
          | _ => none
        else
          match unescapeChar e with
          | some u =>
            match parseStringBody rest2 with
            | some (cs, rem) => some (u :: cs, rem)
            | none => none
          | none => none
    else
      match parseStringBody rest with
      | some (cs, rem) => some (c :: cs, rem)
      | none => none

/-- Numeric value of a list of decimal digit characters. -/
def valOfDigits (l : List Char) : Nat :=
  l.foldl (fun a c => a * 10 + (c.toNat - 48)) 0

/-- Optional leading minus sign of a JSON number. -/
def parseNumSign (l : List Char) : Bool × List Char :=
  match l with
  | c :: rest => if c = '-' then (true, rest) else (false, l)
  | [] => (false, l)

/-- Apply a parsed sign to a digit value. -/
def intSign (neg : Bool) (n : Nat) : Int := if neg then -(n : Int) else (n : Int)

/-- Parse a JSON number (integer part, optional fraction; the report
payloads printed by `JSON.stringify` never use exponent form). -/
def parseNumber (l : List Char) : Option (Json × List Char) :=
  match parseNumSign l with
  | (neg, body) =>
    match body.span (fun c => c.isDigit) with
    | (ds, rest2) =>
      if ds.isEmpty then none
      else
        match rest2 with
        | dot :: rest3 =>
          if dot = '.' then
            match rest3.span (fun c => c.isDigit) with
            | (fs, rest4) =>
              if fs.isEmpty then none
              else some (.num (intSign neg (valOfDigits (ds ++ fs))) fs.length, rest4)
          else some (.num (intSign neg (valOfDigits ds)) 0, rest2)
        | [] => some (.num (intSign neg (valOfDigits ds)) 0, [])

mutual

/-- Fuel-indexed recursive-descent JSON value parser (`JSON.parse`).
Skips leading whitespace; every recursive call consumes one unit of
fuel, so the definition is structural and kernel-evaluable. -/
def parseValue : Nat → List Char → Option (Json × List Char)
  | 0, _ => none
  | fuel + 1, input =>
    match skipWs input with
    | [] => none
    | c :: rest =>
      if c = quoteChar then
        match parseStringBody rest with
        | some (cs, rem) => some (.str ⟨cs⟩, rem)
        | none => none
      else if c = '[' then
        match skipWs rest with
        | [] => none
        | c2 :: rem2 =>
          if c2 = ']' then some (.arr [], rem2)
          else
            match parseArrItems fuel (c2 :: rem2) with
            | some (vs, rem) => some (.arr vs, rem)
            | none => none
      else if c = braceOpenChar then
        match skipWs rest with
        | [] => none
        | c2 :: rem2 =>
          if c2 = braceCloseChar then some (.obj [], rem2)
          else
            match parseObjItems fuel (c2 :: rem2) with
            | some (fs, rem) => some (.obj fs, rem)
            | none => none
      else if c = 'n' then
        match rest with
        | 'u' :: 'l' :: 'l' :: rem => some (.null, rem)
        | _ => none
      else if c = 't' then
        match rest with
        | 'r' :: 'u' :: 'e' :: rem => some (.bool true, rem)
        | _ => none
      else if c = 'f' then
        match rest with
        | 'a' :: 'l' :: 's' :: 'e' :: rem => some (.bool false, rem)
        | _ => none
      else if c = '-' || c.isDigit then parseNumber (c :: rest)
      else none

/-- One-or-more comma-separated array elements followed by `]`. -/
def parseArrItems : Nat → List Char → Option (List Json × List Char)
  | 0, _ => none
  | fuel + 1, input =>
    match parseValue fuel input with
    | none => none
    | some (v, rest) =>
      match skipWs rest with
      | [] => none
      | c :: rest2 =>
        if c = ',' then
          match parseArrItems fuel rest2 with
          | some (vs, rem) => some (v :: vs, rem)
          | none => none
        else if c = ']' then some ([v], rest2)
        else none

/-- One-or-more comma-separated object fields followed by the closing
brace. -/
def parseObjItems : Nat → List Char → Option (List (String × Json) × List Char)
  | 0, _ => none
  | fuel + 1, input =>
    match skipWs input with
    | [] => none
    | q :: r =>
      if q = quoteChar then
        match parseStringBody r with
        | none => none
        | some (kcs, r2) =>
          match skipWs r2 with
          | [] => none
          | colon :: r3 =>
            if colon = ':' then
              match parseValue fuel r3 with
              | none => none
              | some (v, r4) =>
                match skipWs r4 with
                | [] => none
                | c :: r5 =>
                  if c = ',' then
                    match parseObjItems fuel r5 with
                    | some (fs, rem) => some ((⟨kcs⟩, v) :: fs, rem)
                    | none => none
                  else if c = braceCloseChar then some ([(⟨kcs⟩, v)], r5)
                  else none
            else none
      else none

end

/-- `JSON.parse`: parse a complete value and require only whitespace to
remain. -/
def jsonParse (s : String) : Option Json :=
  match parseValue (s.data.length + 1) s.data with
  | some (v, rest) => if (skipWs rest).isEmpty then some v else none
  | none => none

/-- The three named scores of a report (`payload.scores`); an absent or
non-numeric entry is `none` (the renderer checks `typeof === "number"`). -/
structure Scores where
  empathy : Option JNum
  compliance : Option JNum
  structureScore : Option JNum

/-- One rendered score row of `renderScores`: label, the `scaleX` fill
fraction of the bar, and the numeric label text. -/
structure ScoreRow where
  label : String
  fill : JNum
  valueLabel : String
deriving DecidableEq

/-- One row of `renderScores` (`src/unnamed/part_000` lines 72–95): the
fill is `Math.max(0, Math.min(1, rawValue))` for a numeric value and `0`
otherwise; the value label is `(rawValue ?? 0).toFixed(2)`. -/
def scoreRowOf (label : String) (rawValue : Option JNum) : ScoreRow :=
  { label := label
    fill := match rawValue with
      | some v => jnumClamp01 v
      | none => ⟨0, 0⟩
    valueLabel := jsToFixed 2 (rawValue.getD ⟨0, 0⟩) }

/-- `renderScores(scores = {})` from `src/unnamed/part_000` lines 64–97:
three fixed rows in order. -/
def renderScores (scores : Option Scores) : List ScoreRow :=
  let s := scores.getD ⟨none, none, none⟩
  [scoreRowOf "Эмпатия" s.empathy,
   scoreRowOf "Комплаенс" s.compliance,
   scoreRowOf "Структура" s.structureScore]

/-- The summary-relevant payload fields.  The renderer reads the key
`lang`; the service data contract names the language field `language`,
so both are carried to state how the renderer treats each.  `partFlag`
models the payload's `partial` field (a Lean keyword). -/
structure SummaryPayload where
  callId : Option String
  lang : Option String
  language : Option String
  durationSec : Option JNum
  consent : Bool
  partFlag : Bool

/-- Language cell of the summary: `payload.lang?.toUpperCase?.() || "–"`. -/
def summaryLangText (lang : Option String) : String :=
  match lang with
  | some s => if jsUpper s = "" then "–" else jsUpper s
  | none => "–"

/-- `renderSummary(payload)` from `src/unnamed/part_000` lines 31–62:
label/value rows in order, with an extra `LLM` row only when the payload
is partial; an absent value renders the placeholder (`item.value ?? "–"`). -/
def renderSummary (p : SummaryPayload) : List (String × String) :=
  let items : List (String × Option String) :=
    [("Call ID", p.callId),
     ("Язык", some (summaryLangText p.lang)),
     ("Длительность", some (jsToFixed 1 (p.durationSec.getD ⟨0, 0⟩) ++ " сек")),
     ("Согласие", some (if p.consent then "Получено" else "Не указано"))]
    ++ (if p.partFlag then [("LLM", some "Частичный ответ")] else [])
  items.map (fun it => (it.1, it.2.getD "–"))

/-- `operational.speechRateWpm` sub-object. -/
structure SpeechRate where
  manager : Option JNum
  client : Option JNum

/-- `operational.interruptions` sub-object. -/
structure Interruptions where
  byManager : Option JNum
  byClient : Option JNum

/-- The operational metrics sub-object of the payload.  The two nested
objects default through `|| {}` in the renderer, so `none` covers both an
absent and a `null` nested object. -/
structure Operational where
  silencePct : Option JNum
  overlapPct : Option JNum
  speechRateWpm : Option SpeechRate
  interruptions : Option Interruptions

/-- `fmtPercent(value)` from `src/unnamed/part_000` line 18:
`Number(value || 0).toFixed(1) + "%"`; a falsy (absent or zero) value
formats as zero. -/
def fmtPercent (value : Option JNum) : String :=
  let n := match value with
    | some v => if v.mant = 0 then (⟨0, 0⟩ : JNum) else v
    | none => ⟨0, 0⟩
  jsToFixed 1 n ++ "%"

/-- `renderOperational(operational = {})` from `src/unnamed/part_000`
lines 99–119: six fixed label/value rows. -/
def renderOperational (operational : Option Operational) : List (String × String) :=
  let op := operational.getD ⟨none, none, none, none⟩
  let speech := op.speechRateWpm.getD ⟨none, none⟩
  let inter := op.interruptions.getD ⟨none, none⟩
  [("Тишина", fmtPercent op.silencePct),
   ("Перекрытия", fmtPercent op.overlapPct),
   ("Темп речи (менеджер)", numToString (speech.manager.getD ⟨0, 0⟩) ++ " wpm"),
   ("Темп речи (клиент)", numToString (speech.client.getD ⟨0, 0⟩) ++ " wpm"),
   ("Перебивания менеджера", numToString (inter.byManager.getD ⟨0, 0⟩)),
   ("Перебивания клиента", numToString (inter.byClient.getD ⟨0, 0⟩))]

/-- One checklist item of the payload. -/
structure ChecklistItem where
  id : Option String
  score : Option JNum
  max : Option JNum
  passed : Bool
  reason : Option String
  evidence : Option String
  ts : Option String

/-- A rendered checklist element: the empty-state paragraph or one card. -/
inductive ChecklistNode where
  | empty (text : String)
  | card (title status reason : String) (evidenceLine : Option String)
deriving DecidableEq

/-- One checklist card (`src/unnamed/part_000` lines 131–155): title
`id · score/max`, pass label, reason with placeholder, and the combined
timestamp+evidence line only when evidence is truthy. -/
def checklistCardOf (item : ChecklistItem) : ChecklistNode :=
  .card
    (jsOrElse item.id "Пункт" ++ " · " ++ numToString (item.score.getD ⟨0, 0⟩)
      ++ "/" ++ numToString (item.max.getD ⟨0, 0⟩))
    (if item.passed then "Выполнено" else "Нужно внимание")
    (jsOrElse item.reason "—")
    (match item.evidence with
     | some ev => if ev = "" then none else some (jsOrElse item.ts "" ++ " · " ++ ev)
     | none => none)

/-- `renderChecklist(list = [])` from `src/unnamed/part_000` lines
121–157: a single explicit placeholder on an empty list, else one card
per item in order. -/
def renderChecklist (list : Option (List ChecklistItem)) : List ChecklistNode :=
  let l := list.getD []
  if l.isEmpty then [.empty "Чек-лист пуст"]
  else l.map checklistCardOf

/-- One highlight item of the payload. -/
structure Highlight where
  type : Option String
  quote : Option String
  ts : Option String

/-- A rendered highlight element. -/
inductive HighlightNode where
  | empty (text : String)
  | card (title quote : String) (ts : Option String)
deriving DecidableEq

/-- One highlight card (`src/unnamed/part_000` lines 169–189). -/
def highlightCardOf (item : Highlight) : HighlightNode :=
  .card (jsOrElse item.type "Событие") (jsOrElse item.quote "—")
    (match item.ts with
     | some t => if t = "" then none else some t
     | none => none)

/-- `renderHighlights(items = [])` from `src/unnamed/part_000` lines
159–191. -/
def renderHighlights (items : Option (List Highlight)) : List HighlightNode :=
  let l := items.getD []
  if l.isEmpty then [.empty "Нет выделенных моментов"]
  else l.map highlightCardOf

/-- One transcript segment of the payload; `start`/`end` are `none` when
absent (or not numbers), in which case `toFixed` throws. -/
structure Segment where
  speaker : Option String
  start : Option JNum
  stop : Option JNum
  text : Option String

/-- A rendered transcript element. -/
inductive TranscriptNode where
  | empty (text : String)
  | row (meta text : String)
deriving DecidableEq

/-- Rows for a non-empty transcript (`src/unnamed/part_000` lines
203–217): `seg.start.toFixed(2)` and `seg.end.toFixed(2)` are unguarded,
so a segment without a numeric `start` or `end` throws a `TypeError`. -/
def transcriptRows : List Segment → Except String (List TranscriptNode)
  | [] => .ok []
  | seg :: rest =>
    match seg.start, seg.stop with
    | some st, some en =>
      match transcriptRows rest with
      | .ok rows =>
        .ok (.row (jsOrElse seg.speaker "?" ++ " · " ++ jsToFixed 2 st ++ "–"
              ++ jsToFixed 2 en ++ " c")
              (jsOrElse seg.text "") :: rows)
      | .error e => .error e
    | _, _ => .error "TypeError: undefined toFixed"

/-- `renderTranscript(transcript = [])` from `src/unnamed/part_000`
lines 193–218. -/
def renderTranscript (transcript : Option (List Segment)) : Except String (List TranscriptNode) :=
  let l := transcript.getD []
  if l.isEmpty then .ok [.empty "Нет сегментов"]
  else transcriptRows l

/-- The full typed payload consumed by `render`. -/
structure RenderPayload where
  summary : SummaryPayload
  scores : Option Scores
  operational : Option Operational
  checklist : Option (List ChecklistItem)
  highlights : Option (List Highlight)
  transcript : Option (List Segment)

/-- The rendered report view: one component per section container. -/
structure RenderedView where
  summaryRows : List (String × String)
  scoreRows : List ScoreRow
  operationalRows : List (String × String)
  checklistNodes : List ChecklistNode
  highlightNodes : List HighlightNode
  transcriptNodes : List TranscriptNode

/-- `render(payload)` from `src/unnamed/part_000` lines 220–228: all six
section renderers; the only section that can throw on a typed payload is
the transcript. -/
def renderAll (p : RenderPayload) : Except String RenderedView :=
  match renderTranscript p.transcript with
  | .ok t =>
    .ok { summaryRows := renderSummary p.summary
          scoreRows := renderScores p.scores
          operationalRows := renderOperational p.operational
          checklistNodes := renderChecklist p.checklist
          highlightNodes := renderHighlights p.highlights
          transcriptNodes := t }
  | .error e => .error e

/-- String content of a JSON value, `none` when absent or not a string. -/
def asStr : Option Json → Option String
  | some (.str s) => some s
  | _ => none

/-- Numeric content of a JSON value, `none` when absent or not a number
(mirrors the renderers' `typeof === "number"` checks and the `toFixed`
throw on non-numbers). -/
def asNum : Option Json → Option JNum
  | some (.num m e) => some ⟨m, e⟩
  | _ => none

/-- Truthiness of an optional property (absent is falsy). -/
def truthyOpt : Option Json → Bool
  | some v => jsTruthy v
  | none => false

/-- Modelled message of the `TypeError` thrown by a property read on
`null`; the exact engine text is irrelevant to every theorem (it is only
ever tested for emptiness). -/
def typeErrorNullMsg : String := "TypeError: null property access"

/-- Generic analyze-failure fallback used when the error body has no
truthy `detail` (`src/unnamed/part_000` line 259). -/
def analyzeFallback : String := "Не удалось выполнить анализ"

/-- Catch-all fallback used when a caught error has an empty message
(`src/unnamed/part_000` line 267). -/
def catchFallback : String := "Ошибка при анализе"

/-- Decode of `payload.scores` as `renderScores` accesses it: absent →
default `{}`; `null` → property read throws; object → the three named
entries; any other value has only undefined properties. -/
def decodeScores (j : Json) : Except String (Option Scores) :=
  match jsProp j "scores" with
  | none => .ok none
  | some .null => .error typeErrorNullMsg
  | some (.obj fs) =>
    .ok (some ⟨asNum (lookupLast fs "empathy"), asNum (lookupLast fs "compliance"),
               asNum (lookupLast fs "structure")⟩)
  | some _ => .ok (some ⟨none, none, none⟩)

/-- Decode of a nested `|| {}`-guarded object (speech rate or
interruptions): any non-object value, `null` included, degrades to the
empty shape without throwing. -/
def decodeSpeechRate (v : Option Json) : Option SpeechRate :=
  match v with
  | some (.obj g) => some ⟨asNum (lookupLast g "manager"), asNum (lookupLast g "client")⟩
  | _ => none

/-- Decode of `operational.interruptions` (see `decodeSpeechRate`). -/
def decodeInterruptions (v : Option Json) : Option Interruptions :=
  match v with
  | some (.obj g) => some ⟨asNum (lookupLast g "byManager"), asNum (lookupLast g "byClient")⟩
  | _ => none

/-- Decode of `payload.operational` as `renderOperational` accesses it. -/
def decodeOperational (j : Json) : Except String (Option Operational) :=
  match jsProp j "operational" with
  | none => .ok none
  | some .null => .error typeErrorNullMsg
  | some (.obj fs) =>
    .ok (some ⟨asNum (lookupLast fs "silencePct"), asNum (lookupLast fs "overlapPct"),
               decodeSpeechRate (lookupLast fs "speechRateWpm"),
               decodeInterruptions (lookupLast fs "interruptions")⟩)
  | some _ => .ok (some ⟨none, none, none, none⟩)

/-- Decode of one checklist item's fields (property reads on the item). -/
def decodeChecklistItem (v : Json) : ChecklistItem :=
  ⟨asStr (jsProp v "id"), asNum (jsProp v "score"), asNum (jsProp v "max"),
   truthyOpt (jsProp v "passed"), asStr (jsProp v "reason"),
   asStr (jsProp v "evidence"), asStr (jsProp v "ts")⟩

/-- Decode of one highlight item's fields. -/
def decodeHighlight (v : Json) : Highlight :=
  ⟨asStr (jsProp v "type"), asStr (jsProp v "quote"), asStr (jsProp v "ts")⟩

/-- Decode of one transcript segment's fields. -/
def decodeSegment (v : Json) : Segment :=
  ⟨asStr (jsProp v "speaker"), asNum (jsProp v "start"), asNum (jsProp v "end"),
   asStr (jsProp v "text")⟩

/-- Decode of a list-valued section: absent → default `[]`; `null` →
`.length` read throws; an array maps per item; any other value fails the
`list.length` truthiness test and renders like the empty default. -/
def decodeListProp (j : Json) (k : String) (f : Json → α) : Except String (Option (List α)) :=
  match jsProp j k with
  | none => .ok none
  | some .null => .error typeErrorNullMsg
  | some (.arr l) => .ok (some (l.map f))
  | some _ => .ok none

/-- Decode of the summary-relevant payload fields (`renderSummary`
property reads; the renderer reads `lang`, the service contract names the
field `language`, both are recorded). -/
def decodeSummary (j : Json) : SummaryPayload :=
  { callId := match jsProp j "callId" with
      | some .null => none
      | some v => some (jsValString v)
      | none => none
    lang := asStr (jsProp j "lang")
    language := asStr (jsProp j "language")
    durationSec := asNum (jsProp j "durationSec")
    consent := truthyOpt (jsProp j "consent")
    partFlag := truthyOpt (jsProp j "partial") }

/-- Decode of the whole payload as `render` accesses it; a `null` payload
throws on the first summary property read. -/
def decodePayload (j : Json) : Except String RenderPayload :=
  match j with
  | .null => .error typeErrorNullMsg
  | _ =>
    match decodeScores j, decodeOperational j,
          decodeListProp j "checklist" decodeChecklistItem,
          decodeListProp j "highlights" decodeHighlight,
          decodeListProp j "transcript" decodeSegment with
    | .ok sc, .ok op, .ok chk, .ok hl, .ok tr =>
      .ok ⟨decodeSummary j, sc, op, chk, hl, tr⟩
    | .error e, _, _, _, _ => .error e
    | _, .error e, _, _, _ => .error e
    | _, _, .error e, _, _ => .error e
    | _, _, _, .error e, _ => .error e
    | _, _, _, _, .error e => .error e

/-- `render(payload)` on the raw decoded JSON body: decode then render. -/
def renderAttempt (j : Json) : Except String RenderedView :=
  match decodePayload j with
  | .ok rp => renderAll rp
  | .error e => .error e

/-- The selected file, by size in bytes. -/
structure FileDesc where
  size : Nat
deriving DecidableEq

/-- One multipart form field. -/
inductive FormField where
  | fileField (f : FileDesc)
  | textField (s : String)
deriving DecidableEq

/-- The multipart analyze request: ordered form fields. -/
structure AnalyzeRequest where
  fields : List (String × FormField)
deriving DecidableEq

/-- The client-side upload limit (`100 * 1024 * 1024`,
`src/unnamed/part_000` line 237). -/
def maxUploadBytes : Nat := 100 * 1024 * 1024

/-- The request built by the submit handler (`src/unnamed/part_000`
lines 242–246): the audio file always, the consent marker `"true"` only
when the checkbox is checked. -/
def mkAnalyzeRequest (file : FileDesc) (consentChecked : Bool) : AnalyzeRequest :=
  ⟨[("audio", .fileField file)] ++ (if consentChecked then [("consent", .textField "true")] else [])⟩

/-- Outcome of the analyze fetch: HTTP ok-ness and the body as decoded by
`response.json()` — `.error m` models a rejected `fetch` or a body that is
not valid JSON, carrying the engine's error message. -/
structure ResponseData where
  ok : Bool
  body : Except String Json

/-- External events of the upload workflow. -/
inductive UploadEvent where
  | submitClick (file : Option FileDesc) (consentChecked : Bool)
  | response (r : ResponseData)

/-- Observable client state of the upload workflow: the submit button's
disabled flag, the status line, the session report slot, the in-flight
request and the log of issued requests. -/
structure UiState where
  submitDisabled : Bool
  status : String
  statusType : String
  lastPayload : Option Json
  inFlight : Option AnalyzeRequest
  requests : List AnalyzeRequest
  resultsHidden : Bool

/-- Initial page state. -/
def initUiState : UiState :=
  { submitDisabled := false, status := "", statusType := "info", lastPayload := none,
    inFlight := none, requests := [], resultsHidden := true }

/-- Message of the error thrown for a non-ok response
(`throw new Error(payload.detail || "Не удалось выполнить анализ")`,
`src/unnamed/part_000` line 259): reading `.detail` on a `null` body
throws a `TypeError` instead; a truthy `detail` is string-converted, a
falsy one is replaced by the generic fallback. -/
def detailThrownMessage (payload : Json) : Except String String :=
  match payload with
  | .null => .error typeErrorNullMsg
  | .obj fs =>
    .ok (match lookupLast fs "detail" with
      | some d => if jsTruthy d then jsValString d else analyzeFallback
      | none => analyzeFallback)
  | _ => .ok analyzeFallback

/-- Status text committed by the catch block:
`error.message || "Ошибка при анализе"`. -/
def caughtStatus (m : String) : String := if m = "" then catchFallback else m

/-- One step of the upload workflow (`src/unnamed/part_000` lines
230–271).  A submit click on a disabled affordance is dropped by the
platform, which is the sole concurrency guard.  A completed response
always re-enables the submit affordance (the `finally` block). -/
def uploadStep (s : UiState) (e : UploadEvent) : UiState :=
  match e with
  | .submitClick file consentChecked =>
    if s.submitDisabled then s
    else
      match file with
      | none => { s with status := "Выберите аудиофайл", statusType := "error" }
      | some f =>
        if f.size > maxUploadBytes then
          { s with status := "Файл больше 100 МБ", statusType := "error" }
        else
          let req := mkAnalyzeRequest f consentChecked
          { s with submitDisabled := true,
                   status := "Файл загружен, запускаем анализ...", statusType := "info",
                   inFlight := some req, requests := s.requests ++ [req] }
  | .response r =>
    match s.inFlight with
    | none => s
    | some _ =>
      let base := { s with inFlight := none, submitDisabled := false }
      match r.body with
      | .error m => { base with status := caughtStatus m, statusType := "error" }
      | .ok payload =>
        if r.ok then
          let withReport := { base with lastPayload := some payload }
          match renderAttempt payload with
          | .ok _ =>
            { withReport with
                status := "Готово! Отчёт сохранён в артефактах."
                statusType := "success"
                resultsHidden := false }
          | .error m => { withReport with status := caughtStatus m, statusType := "error" }
        else
          match detailThrownMessage payload with
          | .ok m => { base with status := caughtStatus m, statusType := "error" }
          | .error m => { base with status := caughtStatus m, statusType := "error" }

/-- States reachable from page load through upload-workflow events. -/
inductive ReachableUi : UiState → Prop where
  | init : ReachableUi initUiState
  | step (s : UiState) (e : UploadEvent) : ReachableUi s → ReachableUi (uploadStep s e)

/-- Outcome of the data-export action: a status message without any file
save, or a triggered save with its file name and byte content. -/
inductive ExportOutcome where
  | statusError (msg : String)
  | saved (name : String) (content : String)

/-- File name of an export outcome, when a save was triggered. -/
def ExportOutcome.savedName : ExportOutcome → Option String
  | .saved n _ => some n
  | .statusError _ => none

/-- `downloadJson()` from `src/unnamed/part_000` lines 273–287: a falsy
session report reports an error and saves nothing; otherwise the held
payload is pretty-printed and saved as `callId + ".json"`, with `"report"`
substituted for a falsy `callId`. -/
def downloadJson (lastPayload : Option Json) : ExportOutcome :=
  match lastPayload with
  | none => .statusError "Сначала выполните анализ"
  | some p =>
    if jsTruthy p = false then .statusError "Сначала выполните анализ"
    else
      let callId := match jsProp p "callId" with
        | some v => if jsTruthy v then jsValString v else "report"
        | none => "report"
      .saved (callId ++ ".json") (jsonStringify2 p)

/-- Replace every occurrence of the character `c` by the string `r`
(`String.prototype.replace` with a single-character global regex). -/
def replAll (c : Char) (r : List Char) (l : List Char) : List Char :=
  l.flatMap (fun ch => if ch = c then r else [ch])

/-- `escapeHtml` from `src/web/frontend/app.js` lines 188–195: five
sequential global replacements, ampersand first. -/
def escapeHtmlChars (l : List Char) : List Char :=
  replAll (Char.ofNat 39) "&#039;".data
    (replAll quoteChar "&quot;".data
      (replAll '>' "&gt;".data
        (replAll '<' "&lt;".data
          (replAll '&' "&amp;".data l))))

/-- `escapeHtml` on strings. -/
def escapeHtml (value : String) : String := ⟨escapeHtmlChars value.data⟩

/-- `escapeAttribute` from `src/web/frontend/app.js` lines 197–199:
`escapeHtml` followed by one more double-quote replacement. -/
def escapeAttribute (value : String) : String :=
  ⟨replAll quoteChar "&quot;".data (escapeHtml value).data⟩

/-- The transcript row built for a segment whose `start`/`end` are
present (used to state the one-row-per-segment theorems). -/
def transcriptRowOf (seg : Segment) : TranscriptNode :=
  .row (jsOrElse seg.speaker "?" ++ " · " ++ jsToFixed 2 (seg.start.getD ⟨0, 0⟩) ++ "–"
        ++ jsToFixed 2 (seg.stop.getD ⟨0, 0⟩) ++ " c")
       (jsOrElse seg.text "")

/-- Continuation safety for the number parser: the remaining input does
not start with a digit or a dot, so a printed number is parsed back whole.
Every continuation produced by the pretty-printer satisfies it. -/
def nextSafe : List Char → Prop
  | [] => True
  | c :: _ => c.isDigit = false ∧ c ≠ '.'

/-! ### The second front-end: `src/web/frontend/app.js`

`src/web/frontend/app.js` is a second, independent upload/render page
over the same analyze endpoint.  Its submit handler (lines 7–40) has no
disabled flag, no in-flight guard and no file-size check, and it always
appends a consent field (`checked ? "true" : "false"`); its error branch
checks `response.ok` before parsing and swallows body-parse failures;
its `renderScoreCard` (lines 76–84) shows only a formatted value, with
no bar and no clamping. -/

/-- A score card produced by `renderScoreCard` in `src/web/frontend/app.js`
lines 76–84: a heading and a display value.  This renderer builds no bar
and holds no fill fraction. -/
structure AppScoreCard where
  title : String
  value : String
deriving DecidableEq

/-- `renderScoreCard(title, value)` from `src/web/frontend/app.js` lines
76–84: `typeof value === "number" ? value.toFixed(2) : "-"` — the raw
value formatted to two decimals when it is a number (no clamping), a dash
otherwise. -/
def appRenderScoreCard (title : String) (v : Option JNum) : AppScoreCard :=
  ⟨title, match v with
          | some n => jsToFixed 2 n
          | none => "-"⟩

/-- The multipart request built by the `app.js` submit handler (lines
18–20): the file, then unconditionally a consent field —
`consentInput.checked ? "true" : "false"`. -/
def appMkRequest (file : FileDesc) (consentChecked : Bool) : AnalyzeRequest :=
  ⟨[("file", .fileField file),
    ("consent", .textField (if consentChecked then "true" else "false"))]⟩

/-- Observable client state of the `app.js` upload handler: the status
line, the result container's hidden flag and the log of issued requests.
The page has no submit-disabled flag at all. -/
structure AppUiState where
  status : String
  resultHidden : Bool
  requests : List AnalyzeRequest
deriving DecidableEq

/-- Initial `app.js` page state. -/
def initAppUiState : AppUiState :=
  { status := "", resultHidden := true, requests := [] }

/-- The synchronous part of the `app.js` submit handler (lines 7–26): the
only validation is that a file is selected — there is no size check, no
disabled check and no disabling — and for any selected file one fetch is
issued unconditionally. -/
def appSubmitStep (s : AppUiState) (file : Option FileDesc) (consentChecked : Bool) :
    AppUiState :=
  match file with
  | none => { s with status := "Выберите аудиофайл" }
  | some f =>
    { s with status := "Анализируем звонок..."
             resultHidden := true
             requests := s.requests ++ [appMkRequest f consentChecked] }

/-- `await response.json().catch(() => ({}))` (`app.js` line 29): the
parsed body, or the empty object when the body is not valid JSON. -/
def appCaughtBody : Except String Json → Json
  | .ok j => j
  | .error _ => .obj []

/-- The generic error fallback of `app.js` (line 30). -/
def appAnalyzeFallback : String := "Ошибка анализа"

/-- Message of `new Error(error.detail || "Ошибка анализа")` (`app.js`
line 30): reading `.detail` on a `null` body throws a `TypeError`; a
truthy `detail` is string-converted, a falsy or absent one is replaced
by the fallback. -/
def appDetailMessage (payload : Json) : Except String String :=
  match payload with
  | .null => .error typeErrorNullMsg
  | .obj fs =>
    .ok (match lookupLast fs "detail" with
      | some d => if jsTruthy d then jsValString d else appAnalyzeFallback
      | none => appAnalyzeFallback)
  | _ => .ok appAnalyzeFallback

/-- Status text the `app.js` handler commits for a non-2xx response
(lines 28–31 and 36–39): the thrown message reaches
`statusEl.textContent = error.message` with no further fallback. -/
def appErrorStatus (body : Except String Json) : String :=
  match appDetailMessage (appCaughtBody body) with
  | .ok m => m
  | .error m => m

/-! ### Helper lemmas: digits and decimal formatting -/

theorem digitChar_isDigit (d : Nat) : (digitChar d).isDigit = true := by
  unfold digitChar
  split <;> decide

theorem mem_natDigitsFuel {fuel n : Nat} {acc : List Char} {c : Char}
    (h : c ∈ natDigitsFuel fuel n acc) : c ∈ acc ∨ c.isDigit = true := by
  induction fuel generalizing n acc with
  | zero => exact Or.inl h
  | succ fuel ih =>
    cases n with
    | zero => exact Or.inl h
    | succ m =>
      simp only [natDigitsFuel] at h
      rcases ih h with hin | hd
      · rcases List.mem_cons.mp hin with hc | hacc
        · exact Or.inr (hc ▸ digitChar_isDigit _)
        · exact Or.inl hacc
      · exact Or.inr hd

theorem mem_natToDecimal_isDigit {n : Nat} {c : Char} (h : c ∈ natToDecimal n) :
    c.isDigit = true := by
  unfold natToDecimal at h
  split at h
  · rw [List.mem_singleton] at h
    subst h
    decide
  · rcases mem_natDigitsFuel h with hacc | hd
    · exact absurd hacc (List.not_mem_nil c)
    · exact hd

theorem natDigitsFuel_length {fuel k n : Nat} {acc : List Char} (h : n < 10 ^ k) :
    (natDigitsFuel fuel n acc).length ≤ k + acc.length := by
  induction fuel generalizing k n acc with
  | zero => simp [natDigitsFuel]
  | succ fuel ih =>
    cases n with
    | zero => simp [natDigitsFuel]
    | succ m =>
      simp only [natDigitsFuel]
      cases k with
      | zero =>
        rw [pow_zero] at h
        omega
      | succ k =>
        have hpow : (10 : Nat) ^ (k + 1) = 10 ^ k * 10 := by ring
        have hdiv : (m + 1) / 10 < 10 ^ k := by omega
        have hrec := @ih _ _ (digitChar ((m + 1) % 10) :: acc) hdiv
        simp only [List.length_cons] at hrec
        omega

theorem natToDecimal_length_le {n k : Nat} (hk : 1 ≤ k) (h : n < 10 ^ k) :
    (natToDecimal n).length ≤ k := by
  unfold natToDecimal
  split
  · simpa using hk
  · simpa using @natDigitsFuel_length _ _ _ [] h

theorem padToLen_length_of_le {k : Nat} {l : List Char} (h : l.length ≤ k) :
    (padToLen k l).length = k := by
  unfold padToLen
  simp
  omega

theorem mem_padToLen {k : Nat} {l : List Char} {c : Char} (h : c ∈ padToLen k l) :
    c = '0' ∨ c ∈ l := by
  unfold padToLen at h
  rcases List.mem_append.mp h with hrep | hin
  · exact Or.inl (List.eq_of_mem_replicate hrep)
  · exact Or.inr hin

/-- `toFixed d` with `d > 0` always renders `d` digits after the decimal
point. -/
theorem jsToFixed_shape (d : Nat) (hd : 1 ≤ d) (n : JNum) :
    ∃ pre post : List Char, (jsToFixed d n).data = pre ++ '.' :: post
      ∧ post.length = d ∧ post.all Char.isDigit = true := by
  have hd0 : d ≠ 0 := by omega
  have hmod : toFixedScaled d n % 10 ^ d < 10 ^ d :=
    Nat.mod_lt _ (Nat.pos_pow_of_pos d (by norm_num))
  have hlen : (natToDecimal (toFixedScaled d n % 10 ^ d)).length ≤ d :=
    natToDecimal_length_le hd hmod
  refine ⟨(if n.mant < 0 then ['-'] else []) ++ natToDecimal (toFixedScaled d n / 10 ^ d),
    padToLen d (natToDecimal (toFixedScaled d n % 10 ^ d)), ?_, ?_, ?_⟩
  · simp [jsToFixed, hd0]
  · exact padToLen_length_of_le hlen
  · rw [List.all_eq_true]
    intro c hc
    rcases mem_padToLen hc with h0 | hmem
    · subst h0
      decide
    · exact mem_natToDecimal_isDigit hmem

/-! ### Helper lemmas: modelled number comparison and clamping -/

theorem JNum.le_iff (a b : JNum) : a.le b = true ↔ a.val ≤ b.val := by
  unfold JNum.le JNum.val
  rw [decide_eq_true_eq]
  rw [div_le_div_iff₀ (by positivity) (by positivity)]
  constructor
  · intro h
    exact_mod_cast h
  · intro h
    exact_mod_cast h

theorem JNum.val_zero : (⟨0, 0⟩ : JNum).val = 0 := by
  simp [JNum.val]

theorem JNum.val_one : (⟨1, 0⟩ : JNum).val = 1 := by
  simp [JNum.val]

theorem jnumClamp01_val (v : JNum) : (jnumClamp01 v).val = max 0 (min 1 v.val) := by
  unfold jnumClamp01 jsMathMax jsMathMin
  by_cases h1 : JNum.le ⟨1, 0⟩ v = true
  · have h1v : (1 : ℚ) ≤ v.val := by
      have := (JNum.le_iff ⟨1, 0⟩ v).mp h1
      rwa [JNum.val_one] at this
    rw [if_pos h1]
    have h0 : JNum.le ⟨1, 0⟩ ⟨0, 0⟩ = false := by decide
    rw [h0]
    simp only [Bool.false_eq_true, if_false]
    rw [JNum.val_one, min_eq_left h1v]
    · rw [max_eq_right (by norm_num)]
  · rw [if_neg h1]
    have h1v : v.val ≤ 1 := by
      by_contra hc
      exact h1 ((JNum.le_iff ⟨1, 0⟩ v).mpr (by rw [JNum.val_one]; linarith))
    by_cases h2 : JNum.le v ⟨0, 0⟩ = true
    · have h2v : v.val ≤ 0 := by
        have := (JNum.le_iff v ⟨0, 0⟩).mp h2
        rwa [JNum.val_zero] at this
      rw [if_pos h2, JNum.val_zero, min_eq_right h1v, max_eq_left h2v]
    · have h2v : (0 : ℚ) ≤ v.val := by
        by_contra hc
        exact h2 ((JNum.le_iff v ⟨0, 0⟩).mpr (by rw [JNum.val_zero]; linarith))
      rw [if_neg h2, min_eq_right h1v, max_eq_right h2v]

/-! ### Claim theorems -/

/-- C1 (amended): `part_000`'s score renderer renders, for every raw
numeric value of the three named scores, a bar filled to exactly
`max(0, min(1, v))` — values outside `[0,1]` are clamped at render time,
never rejected — next to the raw value formatted with two decimal places
(the spec's examples `-0.2 → 0.0`, `1.5 → 1.0`, `0.73 → 0.73` are
instances); but `app.js`'s `renderScoreCard` renders only the raw value
to two decimals (a dash for non-numbers), with no bar and no clamping. -/
theorem claim_C1_scores_clamped (e c st : JNum) :
    renderScores (some ⟨some e, some c, some st⟩) =
      [⟨"Эмпатия", jnumClamp01 e, jsToFixed 2 e⟩,
       ⟨"Комплаенс", jnumClamp01 c, jsToFixed 2 c⟩,
       ⟨"Структура", jnumClamp01 st, jsToFixed 2 st⟩]
    ∧ (∀ v : JNum, (jnumClamp01 v).val = max 0 (min 1 v.val))
    ∧ (jnumClamp01 ⟨-2, 1⟩).val = 0
    ∧ (jnumClamp01 ⟨15, 1⟩).val = 1
    ∧ (jnumClamp01 ⟨73, 2⟩).val = (73 : ℚ) / 100
    ∧ (∀ v : JNum, ∃ pre post : List Char, (jsToFixed 2 v).data = pre ++ '.' :: post
        ∧ post.length = 2 ∧ post.all Char.isDigit = true)
    ∧ (∀ (t : String) (v : JNum), appRenderScoreCard t (some v) = ⟨t, jsToFixed 2 v⟩)
    ∧ (∀ t : String, appRenderScoreCard t none = ⟨t, "-"⟩) := by
  refine ⟨rfl, jnumClamp01_val, ?_, ?_, ?_, fun v => jsToFixed_shape 2 (by norm_num) v,
    fun t v => rfl, fun t => rfl⟩
  · have : jnumClamp01 ⟨-2, 1⟩ = ⟨0, 0⟩ := by decide
    rw [this, JNum.val_zero]
  · have : jnumClamp01 ⟨15, 1⟩ = ⟨1, 0⟩ := by decide
    rw [this, JNum.val_one]
  · have : jnumClamp01 ⟨73, 2⟩ = ⟨73, 2⟩ := by decide
    rw [this]
    simp [JNum.val]
    norm_num

/-- C1 counterexample: `app.js`'s `renderScoreCard` neither clamps nor
builds a bar — the raw score 1.5 is displayed as `"1.50"`, while the
claimed clamped fill `max(0, min(1, 1.5))` formats as `"1.00"`; the card
it produces carries no fill fraction at all. -/
theorem claim_C1_counterexample :
    appRenderScoreCard "Эмпатия" (some ⟨15, 1⟩) = ⟨"Эмпатия", "1.50"⟩
  ∧ jsToFixed 2 (jnumClamp01 ⟨15, 1⟩) = "1.00"
  ∧ ("1.50" : String) ≠ "1.00" := by
  refine ⟨rfl, ?_, by decide⟩
  have : jnumClamp01 ⟨15, 1⟩ = ⟨1, 0⟩ := by decide
  rw [this]
  rfl

/-- Transcript rendering is one row per segment when every segment has
numeric `start` and `end`. -/
theorem transcriptRows_total (l : List Segment)
    (h : l.all (fun s => s.start.isSome && s.stop.isSome) = true) :
    transcriptRows l = .ok (l.map transcriptRowOf) := by
  induction l with
  | nil => rfl
  | cons seg rest ih =>
    rw [List.all_cons, Bool.and_eq_true] at h
    obtain ⟨hseg, hrest⟩ := h
    rw [Bool.and_eq_true] at hseg
    obtain ⟨hst, hen⟩ := hseg
    obtain ⟨st, hst'⟩ := Option.isSome_iff_exists.mp hst
    obtain ⟨en, hen'⟩ := Option.isSome_iff_exists.mp hen
    rw [List.map_cons]
    unfold transcriptRows
    rw [hst', hen', ih hrest]
    simp [transcriptRowOf, hst', hen']

/-- C6: each of the checklist, highlights and transcript renderers shows
exactly one explicit placeholder element on an empty list — never zero
elements — and one card/row per item, in order, on a non-empty list (for
the transcript, on segments with their numeric `start`/`end` present). -/
theorem claim_C6_empty_placeholders :
    (renderChecklist (some []) = [.empty "Чек-лист пуст"])
  ∧ (∀ l : List ChecklistItem, l ≠ [] → renderChecklist (some l) = l.map checklistCardOf)
  ∧ (renderHighlights (some []) = [.empty "Нет выделенных моментов"])
  ∧ (∀ l : List Highlight, l ≠ [] → renderHighlights (some l) = l.map highlightCardOf)
  ∧ (renderTranscript (some []) = .ok [.empty "Нет сегментов"])
  ∧ (∀ l : List Segment, l ≠ [] →
      l.all (fun s => s.start.isSome && s.stop.isSome) = true →
      renderTranscript (some l) = .ok (l.map transcriptRowOf)) := by
  refine ⟨rfl, ?_, rfl, ?_, rfl, ?_⟩
  · intro l hl
    match l with
    | x :: xs => rfl
  · intro l hl
    match l with
    | x :: xs => rfl
  · intro l hl hall
    match l with
    | x :: xs =>
      unfold renderTranscript
      simpa using transcriptRows_total (x :: xs) hall

/-- Witness for C6 at one-element lists. -/
theorem claim_C6_witness :
    renderChecklist (some [⟨none, none, none, true, none, none, none⟩])
      = [(⟨none, none, none, true, none, none, none⟩ : ChecklistItem)].map checklistCardOf
  ∧ renderHighlights (some [⟨none, none, none⟩])
      = [(⟨none, none, none⟩ : Highlight)].map highlightCardOf
  ∧ renderTranscript (some [⟨none, some ⟨0, 0⟩, some ⟨1, 0⟩, none⟩])
      = .ok ([(⟨none, some ⟨0, 0⟩, some ⟨1, 0⟩, none⟩ : Segment)].map transcriptRowOf) :=
  ⟨claim_C6_empty_placeholders.2.1 _ (by simp),
   claim_C6_empty_placeholders.2.2.2.1 _ (by simp),
   claim_C6_empty_placeholders.2.2.2.2.2 _ (by simp) (by decide)⟩

/-- C7 (amended): in `part_000` a valid submission issues exactly one
analyze request whose form fields carry the audio file and, when the
consent box is checked, the consent marker with value `"true"`; with
consent unchecked no consent field is present at all.  `app.js`, by
contrast, always appends a consent field — `"true"` when checked,
`"false"` when not — so its request carries a consent field even when
consent is not affirmed. -/
theorem claim_C7_consent_marker (s : UiState) (file : FileDesc) (c : Bool)
    (hdis : s.submitDisabled = false) (hsize : file.size ≤ maxUploadBytes) :
    (uploadStep s (.submitClick (some file) c)).requests
        = s.requests ++ [mkAnalyzeRequest file c]
    ∧ (mkAnalyzeRequest file true).fields
        = [("audio", .fileField file), ("consent", .textField "true")]
    ∧ (mkAnalyzeRequest file false).fields = [("audio", .fileField file)]
    ∧ List.lookup "consent" (mkAnalyzeRequest file true).fields = some (.textField "true")
    ∧ (mkAnalyzeRequest file false).fields.all (fun kv => kv.1 != "consent") = true
    ∧ (appMkRequest file true).fields
        = [("file", .fileField file), ("consent", .textField "true")]
    ∧ (appMkRequest file false).fields
        = [("file", .fileField file), ("consent", .textField "false")] := by
  have hgt : ¬ file.size > maxUploadBytes := by omega
  refine ⟨?_, rfl, rfl, ?_, ?_, rfl, rfl⟩
  · simp [uploadStep, hdis, hgt]
  · simp [mkAnalyzeRequest, List.lookup]
  · simp [mkAnalyzeRequest]

/-- Witness for C7 at a small file. -/
theorem claim_C7_witness :
    (uploadStep initUiState (.submitClick (some ⟨7⟩) true)).requests
      = initUiState.requests ++ [mkAnalyzeRequest ⟨7⟩ true] :=
  (claim_C7_consent_marker initUiState ⟨7⟩ true rfl (by decide)).1

/-- C7 counterexample: with consent not affirmed, the `app.js` request
still carries a consent field, with value `"false"` — it is not absent. -/
theorem claim_C7_counterexample :
    List.lookup "consent" (appMkRequest ⟨7⟩ false).fields = some (.textField "false")
  ∧ (appMkRequest ⟨7⟩ false).fields.all (fun kv => kv.1 != "consent") = false :=
  ⟨by decide, by decide⟩

/-- C3 (amended): in `part_000`, with no file selected, or with a
selected file larger than 100 MiB (104857600 bytes; 104857601 bytes
already violates it), submit sets a locally generated validation message
and changes nothing else: no request is issued and nothing is put in
flight.  `app.js` validates only that a file is selected: it has no size
check, so an oversized file is submitted and a network request is
issued. -/
theorem claim_C3_validation (s : UiState) (c : Bool) (hdis : s.submitDisabled = false) :
    (uploadStep s (.submitClick none c)
        = { s with status := "Выберите аудиофайл", statusType := "error" })
    ∧ (∀ file : FileDesc, maxUploadBytes < file.size →
        uploadStep s (.submitClick (some file) c)
          = { s with status := "Файл больше 100 МБ", statusType := "error" })
    ∧ maxUploadBytes = 104857600
    ∧ (∀ (t : AppUiState) (b : Bool),
        appSubmitStep t none b = { t with status := "Выберите аудиофайл" })
    ∧ (∀ (t : AppUiState) (b : Bool) (file : FileDesc), maxUploadBytes < file.size →
        (appSubmitStep t (some file) b).requests = t.requests ++ [appMkRequest file b]) := by
  refine ⟨?_, ?_, rfl, fun t b => rfl, fun t b file _ => rfl⟩
  · simp [uploadStep, hdis]
  · intro file h
    simp [uploadStep, hdis, h]

/-- C3 counterexample: `app.js` submits a file of 100 MiB + 1 byte — a
network request is issued despite the claimed size-limit validation. -/
theorem claim_C3_counterexample :
    maxUploadBytes < 104857601
  ∧ (appSubmitStep initAppUiState (some ⟨104857601⟩) false).requests
      = [appMkRequest ⟨104857601⟩ false] :=
  ⟨by decide, rfl⟩

/-- Witness for C3: no file, and a file of exactly 100 MiB + 1 byte. -/
theorem claim_C3_witness :
    uploadStep initUiState (.submitClick none false)
      = { initUiState with status := "Выберите аудиофайл", statusType := "error" }
    ∧ uploadStep initUiState (.submitClick (some ⟨104857601⟩) false)
      = { initUiState with status := "Файл больше 100 МБ", statusType := "error" } :=
  ⟨(claim_C3_validation initUiState false rfl).1,
   (claim_C3_validation initUiState false rfl).2.1 ⟨104857601⟩ (by decide)⟩

/-- Every completion path of a response re-enables the submit affordance,
clears the in-flight slot and issues no request. -/
theorem uploadStep_response_fields (s : UiState) (r : ResponseData) (req : AnalyzeRequest)
    (hreq : s.inFlight = some req) :
    (uploadStep s (.response r)).submitDisabled = false
    ∧ (uploadStep s (.response r)).inFlight = none
    ∧ (uploadStep s (.response r)).requests = s.requests := by
  obtain ⟨ok, body⟩ := r
  cases body with
  | error m => simp [uploadStep, hreq]
  | ok payload =>
    cases ok with
    | false =>
      simp only [uploadStep, hreq]
      cases detailThrownMessage payload <;> simp
    | true =>
      simp only [uploadStep, hreq]
      cases renderAttempt payload <;> simp

/-- While a request is in flight the submit affordance is disabled, in
every reachable state. -/
theorem reachable_inflight_disabled {s : UiState} (h : ReachableUi s) :
    s.inFlight.isSome = true → s.submitDisabled = true := by
  induction h with
  | init => intro h0; simp [initUiState] at h0
  | step s e hr ih =>
    intro hin
    cases e with
    | submitClick file c =>
      by_cases hd : s.submitDisabled = true
      · simp [uploadStep, hd]
      · have hd' : s.submitDisabled = false := by
          cases hds : s.submitDisabled
          · rfl
          · exact absurd hds hd
        cases file with
        | none =>
          simp only [uploadStep, hd', Bool.false_eq_true, if_false] at hin ⊢
          exact absurd (ih hin) hd
        | some f =>
          by_cases hsz : f.size > maxUploadBytes
          · simp [uploadStep, hd', hsz] at hin ⊢
            exact absurd (ih hin) hd
          · simp [uploadStep, hd', hsz]
    | response r =>
      cases hfl : s.inFlight with
      | none =>
        have hstep : uploadStep s (.response r) = s := by
          simp only [uploadStep, hfl]
        rw [hstep] at hin ⊢
        exact ih hin
      | some req =>
        have h2 := (uploadStep_response_fields s r req hfl).2.1
        rw [h2] at hin
        simp at hin

/-- C2 (amended): in `part_000` a submit click while the affordance is
disabled has no observable effect (in particular no second request),
while a request is in flight the affordance is disabled in every
reachable state, every completion — success or failure — re-enables it
and clears the in-flight slot, and a valid submission right after a
completion issues a new request; but `app.js` has no in-flight guard at
all: its handler issues a fetch on every submission with a selected
file, so a second submission while the first is pending issues a second
request. -/
theorem claim_C2_inflight_guard :
    (∀ (s : UiState) (f : Option FileDesc) (c : Bool), s.submitDisabled = true →
        uploadStep s (.submitClick f c) = s)
  ∧ (∀ s : UiState, ReachableUi s → s.inFlight.isSome = true → s.submitDisabled = true)
  ∧ (∀ (s : UiState) (r : ResponseData) (req : AnalyzeRequest), s.inFlight = some req →
        (uploadStep s (.response r)).submitDisabled = false
        ∧ (uploadStep s (.response r)).inFlight = none
        ∧ (uploadStep s (.response r)).requests = s.requests)
  ∧ (∀ (s : UiState) (r : ResponseData) (req : AnalyzeRequest) (file : FileDesc) (c : Bool),
        s.inFlight = some req → file.size ≤ maxUploadBytes →
        (uploadStep (uploadStep s (.response r)) (.submitClick (some file) c)).requests
          = s.requests ++ [mkAnalyzeRequest file c])
  ∧ (∀ (t : AppUiState) (f : FileDesc) (b : Bool),
        (appSubmitStep t (some f) b).requests = t.requests ++ [appMkRequest f b]) := by
  refine ⟨?_, fun s h => reachable_inflight_disabled h, uploadStep_response_fields, ?_,
    fun t f b => rfl⟩
  · intro s f c h
    simp [uploadStep, h]
  · intro s r req file c hreq hsize
    have hfields := uploadStep_response_fields s r req hreq
    set s2 := uploadStep s (.response r) with hs2
    obtain ⟨hdis, -, hreqs⟩ := hfields
    have hgt : ¬ file.size > maxUploadBytes := by omega
    simp [uploadStep, hdis, hgt, hreqs]

/-- Witness for C2: a concrete run — submit, response, submit again. -/
theorem claim_C2_witness :
    (uploadStep
        (uploadStep
          (uploadStep initUiState (.submitClick (some ⟨5⟩) true))
          (.response ⟨false, .error "network down"⟩))
        (.submitClick (some ⟨6⟩) false)).requests
      = (uploadStep initUiState (.submitClick (some ⟨5⟩) true)).requests
        ++ [mkAnalyzeRequest ⟨6⟩ false]
    ∧ uploadStep (uploadStep initUiState (.submitClick (some ⟨5⟩) true))
        (.submitClick (some ⟨6⟩) false)
      = uploadStep initUiState (.submitClick (some ⟨5⟩) true) :=
  ⟨claim_C2_inflight_guard.2.2.2.1 _ ⟨false, .error "network down"⟩
      (mkAnalyzeRequest ⟨5⟩ true) ⟨6⟩ false rfl (by decide),
   claim_C2_inflight_guard.1 _ (some ⟨6⟩) false rfl⟩

/-- C2 counterexample: the `app.js` handler disables nothing — clicking
submit twice with the first request still unresolved (no response has
arrived between the clicks) issues two network requests. -/
theorem claim_C2_counterexample :
    (appSubmitStep (appSubmitStep initAppUiState (some ⟨5⟩) true) (some ⟨5⟩) true).requests
      = [appMkRequest ⟨5⟩ true, appMkRequest ⟨5⟩ true] := by
  rfl

/-- C4 (amended): on a non-2xx response the status text becomes exactly
the body's non-empty string `detail` in both front-ends, but the two
differ on the remaining cases.  `part_000` parses the body before
checking `response.ok`: without a truthy `detail` it shows its generic
fallback, while an unparseable body surfaces the JSON parse error's own
message (its generic catch-all only if that message is empty).  `app.js`
checks `response.ok` first and swallows body-parse failures with
`.catch(() => ({}))`: an absent `detail` and an unparseable body both
yield its fallback `"Ошибка анализа"`.  Every such completion of
`part_000` marks the status as an error and re-enables submit — no
exception escapes either workflow. -/
theorem claim_C4_error_detail (s : UiState) (r : ResponseData) (req : AnalyzeRequest)
    (hreq : s.inFlight = some req) (hok : r.ok = false) :
    (∀ fs d, r.body = .ok (.obj fs) → lookupLast fs "detail" = some (.str d) → d ≠ "" →
        (uploadStep s (.response r)).status = d)
  ∧ (∀ fs, r.body = .ok (.obj fs) → lookupLast fs "detail" = none →
        (uploadStep s (.response r)).status = analyzeFallback)
  ∧ (∀ fs, r.body = .ok (.obj fs) → lookupLast fs "detail" = some (.str "") →
        (uploadStep s (.response r)).status = analyzeFallback)
  ∧ (∀ m, r.body = .error m → (uploadStep s (.response r)).status = caughtStatus m)
  ∧ (∀ m, m ≠ "" → caughtStatus m = m)
  ∧ caughtStatus "" = catchFallback
  ∧ (uploadStep s (.response r)).statusType = "error"
  ∧ (uploadStep s (.response r)).submitDisabled = false
  ∧ (∀ fs d, lookupLast fs "detail" = some (.str d) → d ≠ "" →
        appErrorStatus (.ok (.obj fs)) = d)
  ∧ (∀ fs, lookupLast fs "detail" = none →
        appErrorStatus (.ok (.obj fs)) = appAnalyzeFallback)
  ∧ (∀ m, appErrorStatus (.error m) = appAnalyzeFallback) := by
  obtain ⟨ok, body⟩ := r
  simp only at hok
  subst hok
  refine ⟨?_, ?_, ?_, ?_, ?_, ?_, ?_, ?_, ?_, ?_, fun m => rfl⟩
  · intro fs d hb hd hne
    simp only at hb
    subst hb
    simp [uploadStep, hreq, detailThrownMessage, hd, jsTruthy, hne, jsValString, caughtStatus]
  · intro fs hb hd
    simp only at hb
    subst hb
    simp [uploadStep, hreq, detailThrownMessage, hd, caughtStatus, analyzeFallback, catchFallback]
  · intro fs hb hd
    simp only at hb
    subst hb
    simp [uploadStep, hreq, detailThrownMessage, hd, jsTruthy, caughtStatus, analyzeFallback,
      catchFallback]
  · intro m hb
    simp only at hb
    subst hb
    simp [uploadStep, hreq]
  · intro m hm
    simp [caughtStatus, hm]
  · rfl
  · cases body with
    | error m => simp [uploadStep, hreq]
    | ok payload =>
      simp only [uploadStep, hreq]
      cases detailThrownMessage payload <;> simp
  · cases body with
    | error m => simp [uploadStep, hreq]
    | ok payload =>
      simp only [uploadStep, hreq]
      cases detailThrownMessage payload <;> simp
  · intro fs d hd hne
    simp [appErrorStatus, appCaughtBody, appDetailMessage, hd, jsTruthy, hne, jsValString]
  · intro fs hd
    simp [appErrorStatus, appCaughtBody, appDetailMessage, hd]

/-- Witness for C4: the spec's example body `{ detail: "quota exceeded" }`
reaches the status line verbatim. -/
theorem claim_C4_witness :
    (uploadStep (uploadStep initUiState (.submitClick (some ⟨1⟩) false))
        (.response ⟨false, .ok (.obj [("detail", .str "quota exceeded")])⟩)).status
      = "quota exceeded" :=
  (claim_C4_error_detail _ _ (mkAnalyzeRequest ⟨1⟩ false) rfl rfl).1
    [("detail", .str "quota exceeded")] "quota exceeded" rfl rfl (by decide)

/-- C4 counterexample: in `part_000` a non-2xx response with an
unparseable body does not produce the generic localized fallback — the
status text is the parse error's own message — while `app.js` maps the
same unparseable body to its fallback, so on this input the two cited
handlers even disagree with each other. -/
theorem claim_C4_counterexample :
    (uploadStep (uploadStep initUiState (.submitClick (some ⟨1⟩) false))
        (.response ⟨false, .error "SyntaxError: Unexpected token"⟩)).status
      = "SyntaxError: Unexpected token"
    ∧ "SyntaxError: Unexpected token" ≠ analyzeFallback
    ∧ "SyntaxError: Unexpected token" ≠ catchFallback
    ∧ appErrorStatus (.error "SyntaxError: Unexpected token") = appAnalyzeFallback
    ∧ "SyntaxError: Unexpected token" ≠ appAnalyzeFallback :=
  ⟨rfl, by decide, by decide, rfl, by decide⟩

/-- Uppercasing is empty only on the empty string. -/
theorem jsUpper_ne_empty {s : String} (h : s ≠ "") : jsUpper s ≠ "" := by
  intro hc
  apply h
  have hdata : s.data.map Char.toUpper = [] := congrArg String.data hc
  rw [List.map_eq_nil_iff] at hdata
  cases s with
  | mk data =>
    simp only at hdata
    rw [hdata]

/-- C8 (amended): the summary shows four fixed rows — call id, language,
duration to one decimal with a unit, consent as a binary label — plus a
partial-result row exactly when `partial` is true; but the language cell
is driven by the payload key `lang`: a non-empty `lang` is shown
uppercased, and the `language` field named by the data contract is never
read, so a payload carrying only `language` shows the placeholder. -/
theorem claim_C8_summary_rows (p : SummaryPayload) :
    (renderSummary p).take 4 =
      [("Call ID", p.callId.getD "–"),
       ("Язык", summaryLangText p.lang),
       ("Длительность", jsToFixed 1 (p.durationSec.getD ⟨0, 0⟩) ++ " сек"),
       ("Согласие", if p.consent then "Получено" else "Не указано")]
  ∧ (p.partFlag = true →
      renderSummary p = (renderSummary p).take 4 ++ [("LLM", "Частичный ответ")])
  ∧ (p.partFlag = false → renderSummary p = (renderSummary p).take 4)
  ∧ (∀ s, s ≠ "" → summaryLangText (some s) = jsUpper s)
  ∧ summaryLangText none = "–"
  ∧ (∀ q, renderSummary p = renderSummary { p with language := q }) := by
  refine ⟨?_, ?_, ?_, ?_, rfl, fun q => rfl⟩
  · cases hp : p.partFlag <;> simp [renderSummary, hp]
  · intro hp
    simp [renderSummary, hp]
  · intro hp
    simp [renderSummary, hp]
  · intro s hs
    simp [summaryLangText, jsUpper_ne_empty hs]

/-- Witness for C8 at a concrete partial payload with a set `lang`. -/
theorem claim_C8_witness :
    renderSummary ⟨none, some "ru", none, none, false, true⟩
      = (renderSummary ⟨none, some "ru", none, none, false, true⟩).take 4
        ++ [("LLM", "Частичный ответ")]
    ∧ summaryLangText (some "ru") = jsUpper "ru" :=
  ⟨(claim_C8_summary_rows _).2.1 rfl,
   (claim_C8_summary_rows ⟨none, some "ru", none, none, false, true⟩).2.2.2.1 "ru" (by decide)⟩

/-- C8 counterexample: a payload whose language arrives in the
contract-named field `language` (with no `lang` key) renders the
placeholder `–`, not the uppercased language. -/
theorem claim_C8_counterexample :
    renderSummary ⟨some "call-1", none, some "ru", some ⟨121, 1⟩, true, false⟩
      = [("Call ID", "call-1"), ("Язык", "–"), ("Длительность", "12.1 сек"),
         ("Согласие", "Получено")]
    ∧ jsUpper "ru" = "RU"
    ∧ "–" ≠ "RU" :=
  ⟨rfl, rfl, by decide⟩

/-- Transcript rendering throws exactly when some segment misses a
numeric `start` or `end`. -/
theorem transcriptRows_error_iff (segs : List Segment) :
    (∃ e, transcriptRows segs = .error e)
      ↔ ∃ seg ∈ segs, seg.start = none ∨ seg.stop = none := by
  induction segs with
  | nil =>
    constructor
    · rintro ⟨e, he⟩
      simp [transcriptRows] at he
    · rintro ⟨seg, hmem, -⟩
      simp at hmem
  | cons seg rest ih =>
    cases hst : seg.start with
    | none =>
      constructor
      · rintro -
        exact ⟨seg, List.mem_cons_self _ _, Or.inl hst⟩
      · rintro -
        refine ⟨"TypeError: undefined toFixed", ?_⟩
        unfold transcriptRows
        rw [hst]
    | some st =>
      cases hen : seg.stop with
      | none =>
        constructor
        · rintro -
          exact ⟨seg, List.mem_cons_self _ _, Or.inr hen⟩
        · rintro -
          refine ⟨"TypeError: undefined toFixed", ?_⟩
          unfold transcriptRows
          rw [hst, hen]
      | some en =>
        constructor
        · rintro ⟨e, he⟩
          unfold transcriptRows at he
          rw [hst, hen] at he
          match hrec : transcriptRows rest with
          | .ok rows => rw [hrec] at he; simp at he
          | .error e2 =>
            obtain ⟨s2, hmem, hbad⟩ := ih.mp ⟨e2, hrec⟩
            exact ⟨s2, List.mem_cons_of_mem _ hmem, hbad⟩
        · rintro ⟨s2, hmem, hbad⟩
          rcases List.mem_cons.mp hmem with heq | hmem2
          · subst heq
            rcases hbad with h | h
            · rw [hst] at h; cases h
            · rw [hen] at h; cases h
          · obtain ⟨e2, he2⟩ := ih.mpr ⟨s2, hmem2, hbad⟩
            refine ⟨e2, ?_⟩
            unfold transcriptRows
            rw [hst, hen, he2]

/-- C9 (amended): every section renderer tolerates absent optional
objects and absent per-item fields — rendering a payload succeeds
whenever each transcript segment carries its numeric `start`/`end` — and
each section shows an explicit default or placeholder for missing data;
the sole exception, which refutes the claim as stated, is that transcript
rendering throws exactly when a segment misses `start` or `end`. -/
theorem claim_C9_degraded_rendering :
    (∀ p : RenderPayload,
        (p.transcript.getD []).all (fun s => s.start.isSome && s.stop.isSome) = true →
        ∃ v, renderAll p = .ok v)
  ∧ (∀ segs : List Segment,
        (∃ e, transcriptRows segs = .error e)
          ↔ ∃ seg ∈ segs, seg.start = none ∨ seg.stop = none)
  ∧ renderScores none
      = [⟨"Эмпатия", ⟨0, 0⟩, jsToFixed 2 ⟨0, 0⟩⟩, ⟨"Комплаенс", ⟨0, 0⟩, jsToFixed 2 ⟨0, 0⟩⟩,
         ⟨"Структура", ⟨0, 0⟩, jsToFixed 2 ⟨0, 0⟩⟩]
  ∧ renderOperational none
      = [("Тишина", "0.0%"), ("Перекрытия", "0.0%"), ("Темп речи (менеджер)", "0 wpm"),
         ("Темп речи (клиент)", "0 wpm"), ("Перебивания менеджера", "0"),
         ("Перебивания клиента", "0")]
  ∧ renderChecklist none = [.empty "Чек-лист пуст"]
  ∧ renderHighlights none = [.empty "Нет выделенных моментов"]
  ∧ renderTranscript none = .ok [.empty "Нет сегментов"] := by
  refine ⟨?_, transcriptRows_error_iff, rfl, rfl, rfl, rfl, rfl⟩
  intro p hall
  have htr : ∃ t, renderTranscript p.transcript = .ok t := by
    cases htp : p.transcript with
    | none => exact ⟨_, rfl⟩
    | some segs =>
      rw [htp] at hall
      simp only [Option.getD_some] at hall
      cases segs with
      | nil => exact ⟨_, rfl⟩
      | cons a b =>
        exact ⟨(a :: b).map transcriptRowOf, by
          unfold renderTranscript
          simpa using transcriptRows_total (a :: b) hall⟩
  obtain ⟨t, ht⟩ := htr
  exact ⟨⟨renderSummary p.summary, renderScores p.scores, renderOperational p.operational,
          renderChecklist p.checklist, renderHighlights p.highlights, t⟩,
    by simp [renderAll, ht]⟩

/-- Witness for C9 at the fully degraded payload (everything absent). -/
theorem claim_C9_witness :
    ∃ v, renderAll ⟨⟨none, none, none, none, false, false⟩, none, none, none, none, none⟩
      = .ok v :=
  claim_C9_degraded_rendering.1 _ (by decide)

/-- C9 counterexample: a transcript segment with absent `start`/`end`
makes rendering throw instead of showing a placeholder. -/
theorem claim_C9_counterexample :
    (match renderTranscript (some [⟨none, none, none, none⟩]) with
      | .ok _ => true
      | .error _ => false) = false := by
  decide

/-- A replacement leaves a list without the replaced character unchanged. -/
theorem replAll_of_not_mem {c : Char} {r l : List Char} (h : c ∉ l) :
    replAll c r l = l := by
  induction l with
  | nil => rfl
  | cons x xs ih =>
    have hx : x ≠ c := fun hc => h (hc ▸ List.mem_cons_self x xs)
    have hxs : c ∉ xs := fun hc => h (List.mem_cons_of_mem x hc)
    simp [replAll] at ih ⊢
    simp [hx, ih hxs]

/-- After replacing `c` (by a string not containing it), `c` is gone. -/
theorem not_mem_replAll_self {c : Char} {r l : List Char} (hr : c ∉ r) :
    c ∉ replAll c r l := by
  induction l with
  | nil => simp [replAll]
  | cons x xs ih =>
    simp only [replAll, List.flatMap_cons] at ih ⊢
    intro hmem
    rcases List.mem_append.mp hmem with hhead | htail
    · by_cases hx : x = c
      · rw [if_pos hx] at hhead
        exact hr hhead
      · rw [if_neg hx] at hhead
        rw [List.mem_singleton] at hhead
        exact hx (hhead ▸ rfl)
    · exact ih htail

/-- Replacing a different character introduces no new occurrence. -/
theorem not_mem_replAll_other {q c : Char} {r l : List Char} (hr : q ∉ r) (hl : q ∉ l) :
    q ∉ replAll c r l := by
  induction l with
  | nil => simp [replAll]
  | cons x xs ih =>
    have hx : q ≠ x := fun hc => hl (hc ▸ List.mem_cons_self x xs)
    have hxs : q ∉ xs := fun hc => hl (List.mem_cons_of_mem x hc)
    simp only [replAll, List.flatMap_cons]
    intro hmem
    rcases List.mem_append.mp hmem with hhead | htail
    · by_cases hxc : x = c
      · rw [if_pos hxc] at hhead
        exact hr hhead
      · rw [if_neg hxc] at hhead
        rw [List.mem_singleton] at hhead
        exact hx hhead
    · exact ih hxs htail

/-- No double quote survives `escapeHtml`. -/
theorem quote_not_mem_escapeHtmlChars (l : List Char) :
    quoteChar ∉ escapeHtmlChars l := by
  unfold escapeHtmlChars
  apply not_mem_replAll_other
  · decide
  · apply not_mem_replAll_self
    decide

/-- C10: `escapeAttribute` equals `escapeHtml` on every string — the
extra double-quote replacement is a no-op because `escapeHtml` has
already eliminated every double quote. -/
theorem claim_C10_escape_equivalence (s : String) : escapeAttribute s = escapeHtml s := by
  unfold escapeAttribute escapeHtml
  have hdata : (String.mk (escapeHtmlChars s.data)).data = escapeHtmlChars s.data := rfl
  rw [hdata, replAll_of_not_mem (quote_not_mem_escapeHtmlChars s.data)]

/-! ### Round trip: whitespace handling -/

theorem skipWs_cons_of_ws {c : Char} (h : isWsChar c = true) (l : List Char) :
    skipWs (c :: l) = skipWs l := by
  simp [skipWs, h]

theorem skipWs_cons_of_not_ws {c : Char} (h : isWsChar c = false) (l : List Char) :
    skipWs (c :: l) = c :: l := by
  simp [skipWs, h]

theorem skipWs_append_ws {w : List Char} (l : List Char) (hw : w.all isWsChar = true) :
    skipWs (w ++ l) = skipWs l := by
  induction w with
  | nil => rfl
  | cons c cs ih =>
    rw [List.all_cons, Bool.and_eq_true] at hw
    rw [List.cons_append, skipWs_cons_of_ws hw.1, ih hw.2]

theorem indentChars_all_ws (d : Nat) : (indentChars d).all isWsChar = true := by
  rw [List.all_eq_true]
  intro c hc
  rw [List.eq_of_mem_replicate hc]
  decide

theorem skipWs_nl_indent (d : Nat) (l : List Char) :
    skipWs ('\n' :: (indentChars d ++ l)) = skipWs l := by
  rw [skipWs_cons_of_ws (by decide), skipWs_append_ws l (indentChars_all_ws d)]

theorem parseValue_ws_front (fuel : Nat) {w : List Char} (l : List Char)
    (hw : w.all isWsChar = true) : parseValue fuel (w ++ l) = parseValue fuel l := by
  cases fuel with
  | zero => rfl
  | succ k =>
    simp only [parseValue]
    rw [skipWs_append_ws l hw]

theorem parseArrItems_ws_front (fuel : Nat) {w : List Char} (l : List Char)
    (hw : w.all isWsChar = true) : parseArrItems fuel (w ++ l) = parseArrItems fuel l := by
  cases fuel with
  | zero => rfl
  | succ k =>
    simp only [parseArrItems]
    rw [parseValue_ws_front k l hw]

theorem parseObjItems_ws_front (fuel : Nat) {w : List Char} (l : List Char)
    (hw : w.all isWsChar = true) : parseObjItems fuel (w ++ l) = parseObjItems fuel l := by
  cases fuel with
  | zero => rfl
  | succ k =>
    simp only [parseObjItems]
    rw [skipWs_append_ws l hw]

/-! ### Round trip: decimal digits -/

theorem digitChar_toNat {d : Nat} (h : d < 10) : (digitChar d).toNat - 48 = d := by
  interval_cases d <;> decide

theorem natDigitsFuel_val {fuel n : Nat} (acc : List Char) (h : n ≤ fuel) :
    (natDigitsFuel fuel n acc).foldl (fun x c => x * 10 + (c.toNat - 48)) 0
      = acc.foldl (fun x c => x * 10 + (c.toNat - 48)) n := by
  induction fuel generalizing n acc with
  | zero =>
    have : n = 0 := by omega
    subst this
    rfl
  | succ fuel ih =>
    cases n with
    | zero => rfl
    | succ m =>
      simp only [natDigitsFuel]
      have hdiv : (m + 1) / 10 ≤ fuel := by omega
      rw [ih (digitChar ((m + 1) % 10) :: acc) hdiv]
      simp only [List.foldl_cons]
      rw [digitChar_toNat (Nat.mod_lt _ (by norm_num))]
      congr 1
      omega

theorem valOfDigits_natToDecimal (n : Nat) : valOfDigits (natToDecimal n) = n := by
  unfold valOfDigits natToDecimal
  split
  · simp_all
  · rw [natDigitsFuel_val [] (le_refl n)]
    rfl

theorem valOfDigits_append (a b : List Char) :
    valOfDigits (a ++ b) = b.foldl (fun x c => x * 10 + (c.toNat - 48)) (valOfDigits a) := by
  unfold valOfDigits
  rw [List.foldl_append]

theorem foldl_zeros (m : Nat) (a : Nat) :
    (List.replicate m '0').foldl (fun x c => x * 10 + (c.toNat - 48)) a = a * 10 ^ m := by
  induction m generalizing a with
  | zero => simp
  | succ m ih =>
    rw [List.replicate_succ, List.foldl_cons, ih]
    have : ('0'.toNat - 48) = 0 := by decide
    rw [this]
    ring

theorem valOfDigits_padToLen (k : Nat) (l : List Char) :
    valOfDigits (padToLen k l) = valOfDigits l := by
  unfold padToLen
  rw [valOfDigits_append]
  have : valOfDigits (List.replicate (k - l.length) '0') = 0 := by
    have := foldl_zeros (k - l.length) 0
    unfold valOfDigits
    omega
  rw [this]
  rfl

/-! ### Round trip: number parsing -/

theorem takeWhile_digits_append {a b : List Char} (ha : a.all Char.isDigit = true)
    (hb : ∀ c, b.head? = some c → c.isDigit = false) :
    (a ++ b).takeWhile Char.isDigit = a ∧ (a ++ b).dropWhile Char.isDigit = b := by
  induction a with
  | nil =>
    simp only [List.nil_append]
    cases b with
    | nil => exact ⟨rfl, rfl⟩
    | cons c cs =>
      have hc := hb c rfl
      rw [List.takeWhile_cons, List.dropWhile_cons]
      simp [hc]
  | cons x xs ih =>
    rw [List.all_cons, Bool.and_eq_true] at ha
    obtain ⟨hx, hxs⟩ := ha
    obtain ⟨ht, hd⟩ := ih hxs
    rw [List.cons_append, List.takeWhile_cons, List.dropWhile_cons]
    simp [hx, ht, hd]

theorem span_digits_append {a b : List Char} (ha : a.all Char.isDigit = true)
    (hb : ∀ c, b.head? = some c → c.isDigit = false) :
    (a ++ b).span (fun c => c.isDigit) = (a, b) := by
  rw [List.span_eq_take_drop]
  obtain ⟨ht, hd⟩ := takeWhile_digits_append ha hb
  rw [ht, hd]

theorem nextSafe_head_not_digit {b : List Char} (h : nextSafe b) :
    ∀ c, b.head? = some c → c.isDigit = false := by
  intro c hc
  cases b with
  | nil => simp at hc
  | cons x xs =>
    simp at hc
    subst hc
    exact h.1

theorem natToDecimal_all_digits (n : Nat) : (natToDecimal n).all Char.isDigit = true := by
  rw [List.all_eq_true]
  intro c hc
  exact mem_natToDecimal_isDigit hc

theorem padToLen_all_digits {k : Nat} {l : List Char} (h : l.all Char.isDigit = true) :
    (padToLen k l).all Char.isDigit = true := by
  rw [List.all_eq_true] at h ⊢
  intro c hc
  rcases mem_padToLen hc with h0 | hm
  · subst h0; decide
  · exact h c hm

theorem natDigitsFuel_length_ge (fuel n : Nat) (acc : List Char) :
    acc.length ≤ (natDigitsFuel fuel n acc).length := by
  induction fuel generalizing n acc with
  | zero => simp [natDigitsFuel]
  | succ fuel ih =>
    cases n with
    | zero => simp [natDigitsFuel]
    | succ m =>
      simp only [natDigitsFuel]
      calc acc.length ≤ (digitChar ((m + 1) % 10) :: acc).length := by simp
        _ ≤ _ := ih _ _

theorem natToDecimal_ne_nil (n : Nat) : natToDecimal n ≠ [] := by
  unfold natToDecimal
  split
  · simp
  · cases hn : n with
    | zero => simp_all
    | succ m =>
      simp only [natDigitsFuel]
      intro hc
      have := natDigitsFuel_length_ge m ((m + 1) / 10) [digitChar ((m + 1) % 10)]
      rw [hc] at this
      simp at this

theorem padToLen_ne_nil {k : Nat} {l : List Char} (h : l ≠ []) : padToLen k l ≠ [] := by
  unfold padToLen
  intro hc
  rcases List.append_eq_nil.mp hc with ⟨-, h2⟩
  exact h h2

theorem padToLen_length_ge (k : Nat) (l : List Char) : k ≤ (padToLen k l).length := by
  unfold padToLen
  simp
  omega

theorem exists_head_digit {l : List Char} (hne : l ≠ []) (hall : l.all Char.isDigit = true) :
    ∃ c cs, l = c :: cs ∧ c.isDigit = true ∧ (c = '-') = False := by
  cases l with
  | nil => exact absurd rfl hne
  | cons c cs =>
    rw [List.all_cons, Bool.and_eq_true] at hall
    refine ⟨c, cs, rfl, hall.1, ?_⟩
    simp only [eq_iff_iff, iff_false]
    intro hc
    subst hc
    simp at hall

theorem isEmpty_false_of_ne_nil {l : List Char} (h : l ≠ []) : l.isEmpty = false := by
  cases l with
  | nil => exact absurd rfl h
  | cons c cs => rfl

theorem parseNumSign_print (m : Int) (e : Nat) (rest : List Char) :
    parseNumSign (printNumChars m e ++ rest)
      = (decide (m < 0),
         (if e = 0 then natToDecimal m.natAbs
          else (padToLen (e + 1) (natToDecimal m.natAbs)).take
              ((padToLen (e + 1) (natToDecimal m.natAbs)).length - e)
            ++ '.' :: (padToLen (e + 1) (natToDecimal m.natAbs)).drop
              ((padToLen (e + 1) (natToDecimal m.natAbs)).length - e)) ++ rest) := by
  by_cases hm : m < 0
  · simp only [printNumChars, hm, if_true, decide_eq_true hm]
    by_cases he : e = 0
    · simp only [he, if_true, List.cons_append, parseNumSign, if_pos rfl]
      simp [hm]
    · simp only [he, if_false, List.cons_append, parseNumSign, if_pos rfl]
      simp [hm, List.append_assoc]
  · have hd : decide (m < 0) = false := decide_eq_false hm
    rw [hd]
    by_cases he : e = 0
    · simp only [printNumChars, hm, if_false, he, if_true]
      obtain ⟨c, cs, hcs, hcd, hcdash⟩ :=
        exists_head_digit (natToDecimal_ne_nil m.natAbs) (natToDecimal_all_digits m.natAbs)
      rw [hcs]
      simp only [List.cons_append, parseNumSign, hcdash, if_false]
    · have htake_ne : (padToLen (e + 1) (natToDecimal m.natAbs)).take
          ((padToLen (e + 1) (natToDecimal m.natAbs)).length - e) ≠ [] := by
        apply List.ne_nil_of_length_pos
        rw [List.length_take]
        have h1 := padToLen_length_ge (e + 1) (natToDecimal m.natAbs)
        omega
      have htake_all : ((padToLen (e + 1) (natToDecimal m.natAbs)).take
          ((padToLen (e + 1) (natToDecimal m.natAbs)).length - e)).all Char.isDigit = true := by
        rw [List.all_eq_true]
        intro c hc
        have hmem := List.mem_of_mem_take hc
        have hall := padToLen_all_digits (natToDecimal_all_digits m.natAbs) (k := e + 1)
        rw [List.all_eq_true] at hall
        exact hall c hmem
      obtain ⟨c, cs, hcs, hcd, hcdash⟩ := exists_head_digit htake_ne htake_all
      simp only [printNumChars, hm, if_false, he]
      rw [hcs]
      simp only [List.cons_append, parseNumSign, hcdash, if_false]

theorem intSign_natAbs (m : Int) : intSign (decide (m < 0)) m.natAbs = m := by
  unfold intSign
  by_cases hm : m < 0
  · rw [decide_eq_true hm, if_pos rfl]
    omega
  · rw [decide_eq_false hm]
    simp only [Bool.false_eq_true, if_false]
    omega

theorem parseNumber_print (m : Int) (e : Nat) (rest : List Char) (hsafe : nextSafe rest) :
    parseNumber (printNumChars m e ++ rest) = some (.num m e, rest) := by
  have hrest := nextSafe_head_not_digit hsafe
  unfold parseNumber
  rw [parseNumSign_print]
  try simp only []
  by_cases he : e = 0
  · subst he
    rw [if_pos rfl]
    rw [span_digits_append (natToDecimal_all_digits m.natAbs) hrest]
    try simp only []
    rw [isEmpty_false_of_ne_nil (natToDecimal_ne_nil m.natAbs)]
    simp only [Bool.false_eq_true, if_false]
    cases rest with
    | nil =>
      try simp only []
      rw [valOfDigits_natToDecimal, intSign_natAbs]
    | cons c cs =>
      try simp only []
      have hdot : ¬ (c = '.') := fun hc => hsafe.2 hc
      rw [if_neg hdot]
      rw [valOfDigits_natToDecimal, intSign_natAbs]
  · rw [if_neg he]
    have hdlen : e + 1 ≤ (padToLen (e + 1) (natToDecimal m.natAbs)).length :=
      padToLen_length_ge _ _
    have hdall : (padToLen (e + 1) (natToDecimal m.natAbs)).all Char.isDigit = true :=
      padToLen_all_digits (natToDecimal_all_digits m.natAbs)
    have htake_all : ((padToLen (e + 1) (natToDecimal m.natAbs)).take
        ((padToLen (e + 1) (natToDecimal m.natAbs)).length - e)).all Char.isDigit = true := by
      rw [List.all_eq_true]
      intro c hc
      exact (List.all_eq_true.mp hdall) c (List.mem_of_mem_take hc)
    have hdrop_all : ((padToLen (e + 1) (natToDecimal m.natAbs)).drop
        ((padToLen (e + 1) (natToDecimal m.natAbs)).length - e)).all Char.isDigit = true := by
      rw [List.all_eq_true]
      intro c hc
      exact (List.all_eq_true.mp hdall) c (List.mem_of_mem_drop hc)
    have htake_ne : (padToLen (e + 1) (natToDecimal m.natAbs)).take
        ((padToLen (e + 1) (natToDecimal m.natAbs)).length - e) ≠ [] := by
      apply List.ne_nil_of_length_pos
      rw [List.length_take]
      omega
    have hdrop_len : ((padToLen (e + 1) (natToDecimal m.natAbs)).drop
        ((padToLen (e + 1) (natToDecimal m.natAbs)).length - e)).length = e := by
      rw [List.length_drop]
      omega
    have hdrop_ne : (padToLen (e + 1) (natToDecimal m.natAbs)).drop
        ((padToLen (e + 1) (natToDecimal m.natAbs)).length - e) ≠ [] := by
      apply List.ne_nil_of_length_pos
      omega
    try simp only [List.append_assoc, List.cons_append]
    rw [span_digits_append htake_all ?hdot]
    case hdot =>
      intro c hc
      simp only [List.head?_cons, Option.some.injEq] at hc
      subst hc
      decide
    try simp only []
    rw [isEmpty_false_of_ne_nil htake_ne]
    simp only [Bool.false_eq_true, if_false]
    simp only [if_true]
    rw [span_digits_append hdrop_all hrest]
    try simp only []
    rw [isEmpty_false_of_ne_nil hdrop_ne]
    simp only [Bool.false_eq_true, if_false]
    rw [List.take_append_drop, hdrop_len]
    rw [valOfDigits_padToLen, valOfDigits_natToDecimal, intSign_natAbs]

/-! ### Round trip: string literals -/

theorem hexVal_hexDigitChar {d : Nat} (h : d < 16) : hexVal (hexDigitChar d) = some d := by
  interval_cases d <;> decide

theorem parseStringBody_quote_head (rest : List Char) :
    parseStringBody (quoteChar :: rest) = some ([], rest) := by
  rw [parseStringBody.eq_def]
  try simp only []
  simp only [if_true]

theorem parseStringBody_escape_pair {e u : Char} (hu : unescapeChar e = some u)
    (hne : ¬ e = 'u') {tail cs rem : List Char}
    (htail : parseStringBody tail = some (cs, rem)) :
    parseStringBody (backslashChar :: e :: tail) = some (u :: cs, rem) := by
  rw [parseStringBody.eq_def]
  try simp only []
  simp only [if_true]
  rw [if_neg hne, hu]
  try simp only []
  rw [htail]
  have hq : ¬ (backslashChar = quoteChar) := by decide
  rw [if_neg hq]

theorem parseStringBody_plain {c : Char} (h1 : ¬ c = quoteChar) (h2 : ¬ c = backslashChar)
    {tail cs rem : List Char} (htail : parseStringBody tail = some (cs, rem)) :
    parseStringBody (c :: tail) = some (c :: cs, rem) := by
  rw [parseStringBody.eq_def]
  try simp only []
  rw [if_neg h1, if_neg h2]
  try simp only []
  rw [htail]

theorem parseStringBody_unicode {h3c h4c : Char} {a b : Nat} (h3 : hexVal h3c = some a)
    (h4 : hexVal h4c = some b) {tail cs rem : List Char}
    (htail : parseStringBody tail = some (cs, rem)) :
    parseStringBody (backslashChar :: 'u' :: '0' :: '0' :: h3c :: h4c :: tail)
      = some (Char.ofNat (0 * 4096 + 0 * 256 + a * 16 + b) :: cs, rem) := by
  rw [parseStringBody.eq_def]
  try simp only []
  simp only [if_true]
  have h0 : hexVal '0' = some 0 := by decide
  simp only [h0, h3, h4]
  try simp only []
  rw [htail]
  have hq : ¬ (backslashChar = quoteChar) := by decide
  rw [if_neg hq]

theorem parseStringBody_quote (s : List Char) (rest : List Char) :
    parseStringBody (s.flatMap escapeJsonChar ++ (quoteChar :: rest)) = some (s, rest) := by
  induction s with
  | nil =>
    simp only [List.flatMap_nil, List.nil_append]
    exact parseStringBody_quote_head rest
  | cons c cs ih =>
    simp only [List.flatMap_cons, List.append_assoc]
    by_cases h1 : c = quoteChar
    · subst h1
      have he : escapeJsonChar quoteChar = [backslashChar, quoteChar] := by decide
      rw [he]
      simp only [List.cons_append, List.nil_append]
      exact parseStringBody_escape_pair (by decide) (by decide) ih
    · by_cases h2 : c = backslashChar
      · subst h2
        have he : escapeJsonChar backslashChar = [backslashChar, backslashChar] := by decide
        rw [he]
        simp only [List.cons_append, List.nil_append]
        exact parseStringBody_escape_pair (by decide) (by decide) ih
      · by_cases h3 : c = Char.ofNat 8
        · subst h3
          have he : escapeJsonChar (Char.ofNat 8) = [backslashChar, 'b'] := by decide
          rw [he]
          simp only [List.cons_append, List.nil_append]
          exact parseStringBody_escape_pair (by decide) (by decide) ih
        · by_cases h4 : c = Char.ofNat 9
          · subst h4
            have he : escapeJsonChar (Char.ofNat 9) = [backslashChar, 't'] := by decide
            rw [he]
            simp only [List.cons_append, List.nil_append]
            exact parseStringBody_escape_pair (by decide) (by decide) ih
          · by_cases h5 : c = Char.ofNat 10
            · subst h5
              have he : escapeJsonChar (Char.ofNat 10) = [backslashChar, 'n'] := by decide
              rw [he]
              simp only [List.cons_append, List.nil_append]
              exact parseStringBody_escape_pair (by decide) (by decide) ih
            · by_cases h6 : c = Char.ofNat 12
              · subst h6
                have he : escapeJsonChar (Char.ofNat 12) = [backslashChar, 'f'] := by decide
                rw [he]
                simp only [List.cons_append, List.nil_append]
                exact parseStringBody_escape_pair (by decide) (by decide) ih
              · by_cases h7 : c = Char.ofNat 13
                · subst h7
                  have he : escapeJsonChar (Char.ofNat 13) = [backslashChar, 'r'] := by decide
                  rw [he]
                  simp only [List.cons_append, List.nil_append]
                  exact parseStringBody_escape_pair (by decide) (by decide) ih
                · by_cases h8 : c.toNat < 32
                  · have he : escapeJsonChar c
                        = [backslashChar, 'u', '0', '0', hexDigitChar (c.toNat / 16),
                           hexDigitChar (c.toNat % 16)] := by
                      unfold escapeJsonChar
                      rw [if_neg h1, if_neg h2, if_neg h3, if_neg h4, if_neg h5, if_neg h6,
                        if_neg h7, if_pos h8]
                    rw [he]
                    simp only [List.cons_append, List.nil_append]
                    have := parseStringBody_unicode
                      (hexVal_hexDigitChar (d := c.toNat / 16) (by omega))
                      (hexVal_hexDigitChar (d := c.toNat % 16) (by omega)) ih
                    rw [this]
                    have hcode : 0 * 4096 + 0 * 256 + c.toNat / 16 * 16 + c.toNat % 16
                        = c.toNat := by omega
                    rw [hcode, Char.ofNat_toNat]
                  · have he : escapeJsonChar c = [c] := by
                      unfold escapeJsonChar
                      rw [if_neg h1, if_neg h2, if_neg h3, if_neg h4, if_neg h5, if_neg h6,
                        if_neg h7, if_neg h8]
                    rw [he]
                    simp only [List.cons_append, List.nil_append]
                    exact parseStringBody_plain h1 h2 ih

/-! ### Round trip: head characters of printed values -/

theorem printNumChars_head (m : Int) (e : Nat) :
    ∃ c cs, printNumChars m e = c :: cs ∧ (c = '-' ∨ c.isDigit = true) := by
  by_cases hm : m < 0
  · by_cases he : e = 0
    · exact ⟨'-', natToDecimal m.natAbs, by simp [printNumChars, hm, he], Or.inl rfl⟩
    · exact ⟨'-', (padToLen (e + 1) (natToDecimal m.natAbs)).take
          ((padToLen (e + 1) (natToDecimal m.natAbs)).length - e)
          ++ '.' :: (padToLen (e + 1) (natToDecimal m.natAbs)).drop
            ((padToLen (e + 1) (natToDecimal m.natAbs)).length - e),
        by simp [printNumChars, hm, he], Or.inl rfl⟩
  · by_cases he : e = 0
    · obtain ⟨c, cs, hcs, hcd, -⟩ :=
        exists_head_digit (natToDecimal_ne_nil m.natAbs) (natToDecimal_all_digits m.natAbs)
      refine ⟨c, cs, ?_, Or.inr hcd⟩
      simp only [printNumChars, hm, if_false, he, if_true, hcs]
    · have htake_ne : (padToLen (e + 1) (natToDecimal m.natAbs)).take
          ((padToLen (e + 1) (natToDecimal m.natAbs)).length - e) ≠ [] := by
        apply List.ne_nil_of_length_pos
        rw [List.length_take]
        have h1 := padToLen_length_ge (e + 1) (natToDecimal m.natAbs)
        omega
      have htake_all : ((padToLen (e + 1) (natToDecimal m.natAbs)).take
          ((padToLen (e + 1) (natToDecimal m.natAbs)).length - e)).all Char.isDigit = true := by
        rw [List.all_eq_true]
        intro c hc
        exact (List.all_eq_true.mp
          (padToLen_all_digits (natToDecimal_all_digits m.natAbs))) c (List.mem_of_mem_take hc)
      obtain ⟨c, cs, hcs, hcd, -⟩ := exists_head_digit htake_ne htake_all
      refine ⟨c, cs ++ '.' :: (padToLen (e + 1) (natToDecimal m.natAbs)).drop
          ((padToLen (e + 1) (natToDecimal m.natAbs)).length - e), ?_, Or.inr hcd⟩
      simp only [printNumChars, hm, if_false, he]
      rw [hcs]
      simp

/-- Character-class facts about the first character of a printed number:
it is not whitespace, not a bracket and not a literal or string opener. -/
theorem numHead_class {c : Char} (h : c = '-' ∨ c.isDigit = true) :
    isWsChar c = false ∧ ¬ c = ']' ∧ ¬ c = braceCloseChar ∧ ¬ c = quoteChar ∧ ¬ c = '['
      ∧ ¬ c = braceOpenChar ∧ ¬ c = 'n' ∧ ¬ c = 't' ∧ ¬ c = 'f'
      ∧ (decide (c = '-') || c.isDigit) = true := by
  rcases h with h | h
  · subst h
    refine ⟨by decide, by decide, by decide, by decide, by decide, by decide, by decide,
      by decide, by decide, by decide⟩
  · have hsp : ¬ c = ' ' := fun hc => absurd (hc ▸ h) (by decide)
    have hnl : ¬ c = '\n' := fun hc => absurd (hc ▸ h) (by decide)
    have htb : ¬ c = '\t' := fun hc => absurd (hc ▸ h) (by decide)
    have hcr : ¬ c = '\r' := fun hc => absurd (hc ▸ h) (by decide)
    refine ⟨?_, fun hc => absurd (hc ▸ h) (by decide), fun hc => absurd (hc ▸ h) (by decide),
      fun hc => absurd (hc ▸ h) (by decide), fun hc => absurd (hc ▸ h) (by decide),
      fun hc => absurd (hc ▸ h) (by decide), fun hc => absurd (hc ▸ h) (by decide),
      fun hc => absurd (hc ▸ h) (by decide), fun hc => absurd (hc ▸ h) (by decide), ?_⟩
    · unfold isWsChar
      rw [decide_eq_false hsp, decide_eq_false hnl, decide_eq_false htb, decide_eq_false hcr]
      rfl
    · rw [h, Bool.or_true]

/-- Head character of any printed JSON value: never whitespace and never
a closing bracket. -/
theorem printVal_head (d : Nat) (v : Json) :
    ∃ c cs, printVal d v = c :: cs ∧ isWsChar c = false ∧ ¬ c = ']'
      ∧ ¬ c = braceCloseChar := by
  cases v with
  | null => exact ⟨'n', ['u', 'l', 'l'], by simp [printVal], by decide, by decide, by decide⟩
  | bool b =>
    cases b with
    | false =>
      exact ⟨'f', ['a', 'l', 's', 'e'], by simp [printVal], by decide, by decide, by decide⟩
    | true => exact ⟨'t', ['r', 'u', 'e'], by simp [printVal], by decide, by decide, by decide⟩
  | num m e =>
    obtain ⟨c, cs, hcs, hclass⟩ := printNumChars_head m e
    obtain ⟨hws, hbr, hbc, -⟩ := numHead_class hclass
    exact ⟨c, cs, by rw [show printVal d (.num m e) = printNumChars m e from by simp [printVal],
      hcs], hws, hbr, hbc⟩
  | str s =>
    refine ⟨quoteChar, s.data.flatMap escapeJsonChar ++ [quoteChar], ?_, by decide, by decide,
      by decide⟩
    rw [show printVal d (.str s) = quoteChars s from by simp [printVal]]
    rfl
  | arr l =>
    cases l with
    | nil => exact ⟨'[', [']'], by simp [printVal], by decide, by decide, by decide⟩
    | cons x xs =>
      exact ⟨'[', '\n' :: (indentChars (d + 1) ++ (printVal (d + 1) x
          ++ (printArrTail (d + 1) xs ++ '\n' :: (indentChars d ++ [']'])))),
        by simp [printVal], by decide, by decide, by decide⟩
  | obj l =>
    cases l with
    | nil =>
      exact ⟨braceOpenChar, [braceCloseChar], by simp [printVal], by decide, by decide,
        by decide⟩
    | cons kv fs =>
      obtain ⟨k, v⟩ := kv
      exact ⟨braceOpenChar, '\n' :: (indentChars (d + 1) ++ (quoteChars k
          ++ ':' :: ' ' :: (printVal (d + 1) v ++ (printObjTail (d + 1) fs
            ++ '\n' :: (indentChars d ++ [braceCloseChar]))))),
        by simp [printVal], by decide, by decide, by decide⟩

/-! ### Round trip: master induction -/

theorem jsize_pos (v : Json) : 1 ≤ jsize v := by
  cases v <;> simp [jsize]

theorem parseValue_step (fuel : Nat)
    (ihA : ∀ (x : Json) (xs : List Json) (d1 d2 : Nat) (rest : List Char),
      jsizeItems (x :: xs) ≤ fuel →
      parseArrItems fuel (printVal d1 x ++ (printArrTail d1 xs
        ++ '\n' :: (indentChars d2 ++ ']' :: rest))) = some (x :: xs, rest))
    (ihO : ∀ (k : String) (v : Json) (fs : List (String × Json)) (d1 d2 : Nat)
      (rest : List Char), jsizeFields ((k, v) :: fs) ≤ fuel →
      parseObjItems fuel (quoteChars k ++ ':' :: ' ' :: (printVal d1 v ++ (printObjTail d1 fs
        ++ '\n' :: (indentChars d2 ++ braceCloseChar :: rest)))) = some ((k, v) :: fs, rest)) :
    ∀ (v : Json) (d : Nat) (rest : List Char), jsize v ≤ fuel + 1 → nextSafe rest →
      parseValue (fuel + 1) (printVal d v ++ rest) = some (v, rest) := by
  intro v d rest hsize hsafe
  cases v with
  | null =>
    rw [show printVal d .null = ['n', 'u', 'l', 'l'] from by simp [printVal]]
    rfl
  | bool b =>
    cases b with
    | true =>
      rw [show printVal d (.bool true) = ['t', 'r', 'u', 'e'] from by simp [printVal]]
      rfl
    | false =>
      rw [show printVal d (.bool false) = ['f', 'a', 'l', 's', 'e'] from by simp [printVal]]
      rfl
  | num m e =>
    rw [show printVal d (.num m e) = printNumChars m e from by simp [printVal]]
    obtain ⟨c, cs, hcs, hclass⟩ := printNumChars_head m e
    obtain ⟨hws, hbr, hbc, hq, hlb, hob, hn, ht, hf, hnum⟩ := numHead_class hclass
    rw [hcs]
    simp only [parseValue, List.cons_append]
    rw [skipWs_cons_of_not_ws hws]
    try simp only []
    rw [if_neg hq, if_neg hlb, if_neg hob, if_neg hn, if_neg ht, if_neg hf, if_pos hnum]
    rw [← List.cons_append, ← hcs]
    exact parseNumber_print m e rest hsafe
  | str s =>
    rw [show printVal d (.str s) = quoteChars s from by simp [printVal]]
    rw [show quoteChars s = quoteChar :: (s.data.flatMap escapeJsonChar ++ [quoteChar])
      from rfl]
    simp only [List.cons_append, List.append_assoc, List.singleton_append]
    simp only [parseValue]
    rw [skipWs_cons_of_not_ws (by decide)]
    try simp only []
    simp only [if_true, List.nil_append]
    rw [parseStringBody_quote s.data rest]
  | arr l =>
    cases l with
    | nil =>
      rw [show printVal d (.arr []) = ['[', ']'] from by simp [printVal]]
      rfl
    | cons x xs =>
      rw [show printVal d (.arr (x :: xs)) = '[' :: '\n' :: (indentChars (d + 1)
          ++ (printVal (d + 1) x ++ (printArrTail (d + 1) xs
            ++ '\n' :: (indentChars d ++ [']'])))) from by simp [printVal]]
      simp only [parseValue, List.cons_append, List.append_assoc, List.singleton_append,
        List.nil_append]
      rw [skipWs_cons_of_not_ws (by decide)]
      try simp only []
      rw [if_neg (by decide : ¬ ('[' = quoteChar))]
      simp only [if_true]
      rw [skipWs_nl_indent]
      obtain ⟨c, cs, hcs, hws, hbr, hbc⟩ := printVal_head (d + 1) x
      rw [hcs, List.cons_append, skipWs_cons_of_not_ws hws]
      try simp only []
      rw [if_neg hbr]
      rw [show c :: (cs ++ (printArrTail (d + 1) xs ++ '\n' :: (indentChars d ++ ']' :: rest)))
        = printVal (d + 1) x ++ (printArrTail (d + 1) xs
          ++ '\n' :: (indentChars d ++ ']' :: rest)) from by rw [hcs, List.cons_append]]
      have hsz : jsizeItems (x :: xs) ≤ fuel := by
        simp [jsize] at hsize
        omega
      rw [ihA x xs (d + 1) d rest hsz]
  | obj l =>
    cases l with
    | nil =>
      rw [show printVal d (.obj []) = [braceOpenChar, braceCloseChar] from by simp [printVal]]
      rfl
    | cons kv fs =>
      obtain ⟨k, v⟩ := kv
      rw [show printVal d (.obj ((k, v) :: fs)) = braceOpenChar :: '\n' :: (indentChars (d + 1)
          ++ (quoteChars k ++ ':' :: ' ' :: (printVal (d + 1) v ++ (printObjTail (d + 1) fs
            ++ '\n' :: (indentChars d ++ [braceCloseChar]))))) from by simp [printVal]]
      simp only [parseValue, List.cons_append, List.append_assoc, List.singleton_append,
        List.nil_append]
      rw [skipWs_cons_of_not_ws (by decide)]
      try simp only []
      rw [if_neg (by decide : ¬ (braceOpenChar = quoteChar)),
        if_neg (by decide : ¬ (braceOpenChar = '['))]
      simp only [if_true]
      rw [skipWs_nl_indent]
      rw [show quoteChars k ++ ':' :: ' ' :: (printVal (d + 1) v ++ (printObjTail (d + 1) fs
          ++ '\n' :: (indentChars d ++ braceCloseChar :: rest)))
        = quoteChar :: ((k.data.flatMap escapeJsonChar ++ [quoteChar]) ++ ':' :: ' '
          :: (printVal (d + 1) v ++ (printObjTail (d + 1) fs
            ++ '\n' :: (indentChars d ++ braceCloseChar :: rest)))) from by
        rw [show quoteChars k = quoteChar :: (k.data.flatMap escapeJsonChar ++ [quoteChar])
          from rfl]
        simp]
      rw [skipWs_cons_of_not_ws (by decide)]
      try simp only []
      rw [if_neg (by decide : ¬ (quoteChar = braceCloseChar))]
      rw [show quoteChar :: ((k.data.flatMap escapeJsonChar ++ [quoteChar]) ++ ':' :: ' '
          :: (printVal (d + 1) v ++ (printObjTail (d + 1) fs
            ++ '\n' :: (indentChars d ++ braceCloseChar :: rest))))
        = quoteChars k ++ ':' :: ' ' :: (printVal (d + 1) v ++ (printObjTail (d + 1) fs
          ++ '\n' :: (indentChars d ++ braceCloseChar :: rest))) from by
        rw [show quoteChars k = quoteChar :: (k.data.flatMap escapeJsonChar ++ [quoteChar])
          from rfl]
        simp]
      have hsz : jsizeFields ((k, v) :: fs) ≤ fuel := by
        simp [jsize] at hsize
        omega
      rw [ihO k v fs (d + 1) d rest hsz]

theorem parseArrItems_step (fuel : Nat)
    (ihV : ∀ (v : Json) (d : Nat) (rest : List Char), jsize v ≤ fuel → nextSafe rest →
      parseValue fuel (printVal d v ++ rest) = some (v, rest))
    (ihA : ∀ (x : Json) (xs : List Json) (d1 d2 : Nat) (rest : List Char),
      jsizeItems (x :: xs) ≤ fuel →
      parseArrItems fuel (printVal d1 x ++ (printArrTail d1 xs
        ++ '\n' :: (indentChars d2 ++ ']' :: rest))) = some (x :: xs, rest)) :
    ∀ (x : Json) (xs : List Json) (d1 d2 : Nat) (rest : List Char),
      jsizeItems (x :: xs) ≤ fuel + 1 →
      parseArrItems (fuel + 1) (printVal d1 x ++ (printArrTail d1 xs
        ++ '\n' :: (indentChars d2 ++ ']' :: rest))) = some (x :: xs, rest) := by
  intro x xs d1 d2 rest hsize
  have hszx : jsize x ≤ fuel := by
    simp [jsizeItems] at hsize
    omega
  have hsafe2 : nextSafe (printArrTail d1 xs ++ '\n' :: (indentChars d2 ++ ']' :: rest)) := by
    cases xs with
    | nil =>
      rw [show printArrTail d1 ([] : List Json) = [] from by simp [printArrTail],
        List.nil_append]
      exact ⟨by decide, by decide⟩
    | cons y ys =>
      rw [show printArrTail d1 (y :: ys) = ',' :: '\n' :: (indentChars d1
          ++ (printVal d1 y ++ printArrTail d1 ys)) from by simp [printArrTail],
        List.cons_append]
      exact ⟨by decide, by decide⟩
  simp only [parseArrItems]
  rw [ihV x d1 _ hszx hsafe2]
  try simp only []
  cases xs with
  | nil =>
    rw [show printArrTail d1 ([] : List Json) = [] from by simp [printArrTail],
      List.nil_append]
    rw [skipWs_nl_indent, skipWs_cons_of_not_ws (by decide)]
    try simp only []
    rw [if_neg (by decide : ¬ (']' = ','))]
    simp only [if_true]
  | cons y ys =>
    rw [show printArrTail d1 (y :: ys) = ',' :: '\n' :: (indentChars d1
        ++ (printVal d1 y ++ printArrTail d1 ys)) from by simp [printArrTail]]
    simp only [List.cons_append, List.append_assoc]
    rw [skipWs_cons_of_not_ws (by decide)]
    try simp only []
    simp only [if_true]
    rw [show ('\n' :: (indentChars d1 ++ (printVal d1 y ++ (printArrTail d1 ys
        ++ '\n' :: (indentChars d2 ++ ']' :: rest)))))
      = ('\n' :: indentChars d1) ++ (printVal d1 y ++ (printArrTail d1 ys
        ++ '\n' :: (indentChars d2 ++ ']' :: rest))) from by simp]
    rw [parseArrItems_ws_front fuel _ (by
      rw [List.all_cons, Bool.and_eq_true]
      exact ⟨by decide, indentChars_all_ws d1⟩)]
    have hsz2 : jsizeItems (y :: ys) ≤ fuel := by
      have := jsize_pos x
      simp [jsizeItems] at hsize ⊢
      omega
    rw [ihA y ys d1 d2 rest hsz2]

theorem parseObjItems_step (fuel : Nat)
    (ihV : ∀ (v : Json) (d : Nat) (rest : List Char), jsize v ≤ fuel → nextSafe rest →
      parseValue fuel (printVal d v ++ rest) = some (v, rest))
    (ihO : ∀ (k : String) (v : Json) (fs : List (String × Json)) (d1 d2 : Nat)
      (rest : List Char), jsizeFields ((k, v) :: fs) ≤ fuel →
      parseObjItems fuel (quoteChars k ++ ':' :: ' ' :: (printVal d1 v ++ (printObjTail d1 fs
        ++ '\n' :: (indentChars d2 ++ braceCloseChar :: rest)))) = some ((k, v) :: fs, rest)) :
    ∀ (k : String) (v : Json) (fs : List (String × Json)) (d1 d2 : Nat) (rest : List Char),
      jsizeFields ((k, v) :: fs) ≤ fuel + 1 →
      parseObjItems (fuel + 1) (quoteChars k ++ ':' :: ' ' :: (printVal d1 v
        ++ (printObjTail d1 fs ++ '\n' :: (indentChars d2 ++ braceCloseChar :: rest))))
        = some ((k, v) :: fs, rest) := by
  intro k v fs d1 d2 rest hsize
  have hszv : jsize v ≤ fuel := by
    simp [jsizeFields] at hsize
    omega
  have hsafe2 : nextSafe (printObjTail d1 fs
      ++ '\n' :: (indentChars d2 ++ braceCloseChar :: rest)) := by
    cases fs with
    | nil =>
      rw [show printObjTail d1 ([] : List (String × Json)) = [] from by simp [printObjTail],
        List.nil_append]
      exact ⟨by decide, by decide⟩
    | cons kv2 fs2 =>
      obtain ⟨k2, v2⟩ := kv2
      rw [show printObjTail d1 ((k2, v2) :: fs2) = ',' :: '\n' :: (indentChars d1
          ++ (quoteChars k2 ++ ':' :: ' ' :: (printVal d1 v2 ++ printObjTail d1 fs2)))
        from by simp [printObjTail], List.cons_append]
      exact ⟨by decide, by decide⟩
  simp only [parseObjItems]
  rw [show quoteChars k ++ ':' :: ' ' :: (printVal d1 v ++ (printObjTail d1 fs
      ++ '\n' :: (indentChars d2 ++ braceCloseChar :: rest)))
    = quoteChar :: ((k.data.flatMap escapeJsonChar ++ [quoteChar]) ++ ':' :: ' '
      :: (printVal d1 v ++ (printObjTail d1 fs
        ++ '\n' :: (indentChars d2 ++ braceCloseChar :: rest)))) from by
    rw [show quoteChars k = quoteChar :: (k.data.flatMap escapeJsonChar ++ [quoteChar])
      from rfl]
    simp]
  rw [skipWs_cons_of_not_ws (by decide)]
  try simp only []
  simp only [if_true]
  rw [show (k.data.flatMap escapeJsonChar ++ [quoteChar]) ++ ':' :: ' '
      :: (printVal d1 v ++ (printObjTail d1 fs
        ++ '\n' :: (indentChars d2 ++ braceCloseChar :: rest)))
    = k.data.flatMap escapeJsonChar ++ (quoteChar :: (':' :: ' '
      :: (printVal d1 v ++ (printObjTail d1 fs
        ++ '\n' :: (indentChars d2 ++ braceCloseChar :: rest))))) from by simp]
  rw [parseStringBody_quote]
  try simp only []
  rw [skipWs_cons_of_not_ws (by decide)]
  try simp only []
  simp only [if_true]
  rw [show (' ' :: (printVal d1 v ++ (printObjTail d1 fs
      ++ '\n' :: (indentChars d2 ++ braceCloseChar :: rest))))
    = [' '] ++ (printVal d1 v ++ (printObjTail d1 fs
      ++ '\n' :: (indentChars d2 ++ braceCloseChar :: rest))) from rfl]
  rw [parseValue_ws_front fuel _ (by decide)]
  rw [ihV v d1 _ hszv hsafe2]
  try simp only []
  cases fs with
  | nil =>
    rw [show printObjTail d1 ([] : List (String × Json)) = [] from by simp [printObjTail],
      List.nil_append]
    rw [skipWs_nl_indent, skipWs_cons_of_not_ws (by decide)]
    try simp only []
    rw [if_neg (by decide : ¬ (braceCloseChar = ','))]
    simp only [if_true]
  | cons kv2 fs2 =>
    obtain ⟨k2, v2⟩ := kv2
    rw [show printObjTail d1 ((k2, v2) :: fs2) = ',' :: '\n' :: (indentChars d1
        ++ (quoteChars k2 ++ ':' :: ' ' :: (printVal d1 v2 ++ printObjTail d1 fs2)))
      from by simp [printObjTail]]
    simp only [List.cons_append, List.append_assoc]
    rw [skipWs_cons_of_not_ws (by decide)]
    try simp only []
    simp only [if_true]
    rw [show ('\n' :: (indentChars d1 ++ (quoteChars k2 ++ ':' :: ' ' :: (printVal d1 v2
        ++ (printObjTail d1 fs2 ++ '\n' :: (indentChars d2 ++ braceCloseChar :: rest))))))
      = ('\n' :: indentChars d1) ++ (quoteChars k2 ++ ':' :: ' ' :: (printVal d1 v2
        ++ (printObjTail d1 fs2 ++ '\n' :: (indentChars d2 ++ braceCloseChar :: rest))))
      from by simp]
    rw [parseObjItems_ws_front fuel _ (by
      rw [List.all_cons, Bool.and_eq_true]
      exact ⟨by decide, indentChars_all_ws d1⟩)]
    have hsz2 : jsizeFields ((k2, v2) :: fs2) ≤ fuel := by
      have := jsize_pos v
      simp [jsizeFields] at hsize ⊢
      omega
    rw [ihO k2 v2 fs2 d1 d2 rest hsz2]

/-- The fuel-indexed round trip: a pretty-printed value parses back to
itself with any sufficient fuel, leaving the continuation untouched. -/
theorem roundtrip_fueled (fuel : Nat) :
    (∀ (v : Json) (d : Nat) (rest : List Char), jsize v ≤ fuel → nextSafe rest →
      parseValue fuel (printVal d v ++ rest) = some (v, rest))
  ∧ (∀ (x : Json) (xs : List Json) (d1 d2 : Nat) (rest : List Char),
      jsizeItems (x :: xs) ≤ fuel →
      parseArrItems fuel (printVal d1 x ++ (printArrTail d1 xs
        ++ '\n' :: (indentChars d2 ++ ']' :: rest))) = some (x :: xs, rest))
  ∧ (∀ (k : String) (v : Json) (fs : List (String × Json)) (d1 d2 : Nat) (rest : List Char),
      jsizeFields ((k, v) :: fs) ≤ fuel →
      parseObjItems fuel (quoteChars k ++ ':' :: ' ' :: (printVal d1 v ++ (printObjTail d1 fs
        ++ '\n' :: (indentChars d2 ++ braceCloseChar :: rest)))) = some ((k, v) :: fs, rest)) := by
  induction fuel with
  | zero =>
    refine ⟨?_, ?_, ?_⟩
    · intro v d rest hsize hsafe
      have := jsize_pos v
      omega
    · intro x xs d1 d2 rest hsize
      have := jsize_pos x
      simp [jsizeItems] at hsize
      try omega
    · intro k v fs d1 d2 rest hsize
      have := jsize_pos v
      simp [jsizeFields] at hsize
      try omega
  | succ fuel ih =>
    obtain ⟨ihV, ihA, ihO⟩ := ih
    exact ⟨parseValue_step fuel ihA ihO, parseArrItems_step fuel ihV ihA,
      parseObjItems_step fuel ihV ihO⟩

/-- The structural size of a value is bounded by its printed length plus
one, so the parser fuel chosen by `jsonParse` suffices. -/
theorem jsize_le_printLen :
    ∀ fuel : Nat,
      (∀ (v : Json) (d : Nat), jsize v ≤ fuel → jsize v ≤ (printVal d v).length + 1)
    ∧ (∀ (xs : List Json) (d : Nat), jsizeItems xs ≤ fuel
        → jsizeItems xs ≤ (printArrTail d xs).length)
    ∧ (∀ (fs : List (String × Json)) (d : Nat), jsizeFields fs ≤ fuel
        → jsizeFields fs ≤ (printObjTail d fs).length) := by
  intro fuel
  induction fuel with
  | zero =>
    refine ⟨?_, ?_, ?_⟩
    · intro v d hsize
      have := jsize_pos v
      omega
    · intro xs d hsize
      cases xs with
      | nil => simp [jsizeItems]
      | cons x t =>
        have := jsize_pos x
        simp [jsizeItems] at hsize
        try omega
    · intro fs d hsize
      cases fs with
      | nil => simp [jsizeFields]
      | cons kv t =>
        obtain ⟨k, v⟩ := kv
        have := jsize_pos v
        simp [jsizeFields] at hsize
        try omega
  | succ fuel ih =>
    obtain ⟨ihV, ihA, ihO⟩ := ih
    refine ⟨?_, ?_, ?_⟩
    · intro v d hsize
      cases v with
      | null => simp [jsize, printVal]
      | bool b => cases b <;> simp [jsize, printVal]
      | num m e => simp [jsize]
      | str s => simp [jsize]
      | arr l =>
        cases l with
        | nil => simp [jsize, jsizeItems, printVal]
        | cons x xs =>
          rw [show printVal d (.arr (x :: xs)) = '[' :: '\n' :: (indentChars (d + 1)
              ++ (printVal (d + 1) x ++ (printArrTail (d + 1) xs
                ++ '\n' :: (indentChars d ++ [']'])))) from by simp [printVal]]
          have h1 : jsize x ≤ (printVal (d + 1) x).length + 1 := by
            apply ihV
            simp [jsize, jsizeItems] at hsize
            omega
          have h2 : jsizeItems xs ≤ (printArrTail (d + 1) xs).length := by
            apply ihA
            have := jsize_pos x
            simp [jsize, jsizeItems] at hsize
            omega
          simp only [jsize, jsizeItems, List.length_cons, List.length_append,
            List.length_replicate, indentChars]
          simp [jsizeItems] at h2
          omega
      | obj l =>
        cases l with
        | nil => simp [jsize, jsizeFields, printVal]
        | cons kv fs =>
          obtain ⟨k, v⟩ := kv
          rw [show printVal d (.obj ((k, v) :: fs)) = braceOpenChar :: '\n'
              :: (indentChars (d + 1) ++ (quoteChars k ++ ':' :: ' ' :: (printVal (d + 1) v
                ++ (printObjTail (d + 1) fs ++ '\n' :: (indentChars d ++ [braceCloseChar])))))
            from by simp [printVal]]
          have h1 : jsize v ≤ (printVal (d + 1) v).length + 1 := by
            apply ihV
            simp [jsize, jsizeFields] at hsize
            omega
          have h2 : jsizeFields fs ≤ (printObjTail (d + 1) fs).length := by
            apply ihO
            have := jsize_pos v
            simp [jsize, jsizeFields] at hsize
            omega
          simp only [jsize, jsizeFields, List.length_cons, List.length_append,
            List.length_replicate, indentChars, quoteChars]
          simp [jsizeFields] at h2
          omega
    · intro xs d hsize
      cases xs with
      | nil => simp [jsizeItems]
      | cons x t =>
        rw [show printArrTail d (x :: t) = ',' :: '\n' :: (indentChars d
            ++ (printVal d x ++ printArrTail d t)) from by simp [printArrTail]]
        have h1 : jsize x ≤ (printVal d x).length + 1 := by
          apply ihV
          simp [jsizeItems] at hsize
          omega
        have h2 : jsizeItems t ≤ (printArrTail d t).length := by
          apply ihA
          have := jsize_pos x
          simp [jsizeItems] at hsize
          omega
        simp only [jsizeItems, List.length_cons, List.length_append, List.length_replicate,
          indentChars]
        omega
    · intro fs d hsize
      cases fs with
      | nil => simp [jsizeFields]
      | cons kv t =>
        obtain ⟨k, v⟩ := kv
        rw [show printObjTail d ((k, v) :: t) = ',' :: '\n' :: (indentChars d
            ++ (quoteChars k ++ ':' :: ' ' :: (printVal d v ++ printObjTail d t)))
          from by simp [printObjTail]]
        have h1 : jsize v ≤ (printVal d v).length + 1 := by
          apply ihV
          simp [jsizeFields] at hsize
          omega
        have h2 : jsizeFields t ≤ (printObjTail d t).length := by
          apply ihO
          have := jsize_pos v
          simp [jsizeFields] at hsize
          omega
        simp only [jsizeFields, List.length_cons, List.length_append, List.length_replicate,
          indentChars, quoteChars]
        omega

/-- `JSON.parse` inverts `JSON.stringify(·, null, 2)`: the export's
serialize-then-parse round trip is the identity on every payload. -/
theorem jsonParse_stringify (v : Json) : jsonParse (jsonStringify2 v) = some v := by
  unfold jsonParse jsonStringify2
  have hdata : (String.mk (printVal 0 v)).data = printVal 0 v := rfl
  rw [hdata]
  have hfuel : jsize v ≤ (printVal 0 v).length + 1 :=
    (jsize_le_printLen (jsize v)).1 v 0 (le_refl _)
  have hrt := (roundtrip_fueled ((printVal 0 v).length + 1)).1 v 0 [] hfuel (by
    unfold nextSafe
    trivial)
  rw [List.append_nil] at hrt
  rw [hrt]
  rfl

/-- C5 (amended): with no report held, the data export reports a
user-facing error and triggers no save; with a held report it saves the
pretty-printed payload under `callId + ".json"` — with `report.json` when
`callId` is absent or the empty string (falsy) — and parsing the saved
content back yields exactly the held payload (serialize-then-parse round
trip). -/
theorem claim_C5_export_roundtrip (fs : List (String × Json)) :
    downloadJson none = .statusError "Сначала выполните анализ"
  ∧ (∀ s : String, s ≠ "" → lookupLast fs "callId" = some (.str s) →
      downloadJson (some (.obj fs)) = .saved (s ++ ".json") (jsonStringify2 (.obj fs)))
  ∧ (lookupLast fs "callId" = none →
      downloadJson (some (.obj fs)) = .saved ("report" ++ ".json") (jsonStringify2 (.obj fs)))
  ∧ (lookupLast fs "callId" = some (.str "") →
      downloadJson (some (.obj fs)) = .saved ("report" ++ ".json") (jsonStringify2 (.obj fs)))
  ∧ jsonParse (jsonStringify2 (.obj fs)) = some (.obj fs) := by
  refine ⟨rfl, ?_, ?_, ?_, jsonParse_stringify (.obj fs)⟩
  · intro s hs hcall
    simp [downloadJson, jsProp, jsTruthy, hcall, jsValString, hs]
  · intro hcall
    simp [downloadJson, jsProp, jsTruthy, hcall]
    rfl
  · intro hcall
    simp [downloadJson, jsProp, jsTruthy, hcall, jsValString]
    rfl

/-- Witness for C5 at the spec's example `callId = "call-42"`. -/
theorem claim_C5_witness :
    downloadJson (some (.obj [("callId", Json.str "call-42")]))
      = .saved ("call-42" ++ ".json") (jsonStringify2 (.obj [("callId", Json.str "call-42")]))
    ∧ jsonParse (jsonStringify2 (.obj [("callId", Json.str "call-42")]))
      = some (.obj [("callId", Json.str "call-42")]) :=
  ⟨(claim_C5_export_roundtrip [("callId", Json.str "call-42")]).2.1 "call-42" (by decide) rfl,
   (claim_C5_export_roundtrip [("callId", Json.str "call-42")]).2.2.2.2⟩

/-- C5 counterexample: a held report whose `callId` is the empty string is
saved as `report.json`, not as the claim's `callId + ".json"` (which
would be `".json"`). -/
theorem claim_C5_counterexample :
    (downloadJson (some (.obj [("callId", Json.str "")]))).savedName = some "report.json"
    ∧ "report.json" ≠ "" ++ ".json" :=
  ⟨rfl, by decide⟩
